import Mathlib

/-!
EmulationStation: command line, frame timing and texture deduplication.

A shallow embedding of `es-app/src/main.cpp` (`parseArgs`, the frame-time cap of the
main loop) and of the texture handle / texture data manager contract declared in
`es-core/src/resources/TextureResource.h`.
-/

namespace ES

/-! ## C integer conversions and `atoi` -/

/-- Conversion of a mathematical integer to a 32-bit `int` (two's complement wrap). -/
def toInt32 (x : Int) : Int := (x + 2147483648) % 4294967296 - 2147483648

/-- Conversion of an `int` to `unsigned int` (reduction modulo 2^32). -/
def toUnsigned (x : Int) : Nat := (x % 4294967296).toNat

/-- C `isspace` in the "C" locale: space, `\t`, `\n`, `\v`, `\f`, `\r`. -/
def isspace (c : Char) : Bool := c.toNat = 32 || (9 ≤ c.toNat && c.toNat ≤ 13)

/-- C `isdigit`. -/
def isdigit (c : Char) : Bool := 48 ≤ c.toNat && c.toNat ≤ 57

/-- Value of the longest prefix of decimal digits, accumulated left to right. -/
def digitsValue : Nat → List Char → Nat
  | acc, [] => acc
  | acc, c :: cs => if isdigit c then digitsValue (acc * 10 + (c.toNat - 48)) cs else acc

/-- Saturation of a mathematical integer to a 64-bit `long`: below `LONG_MIN` it is
`LONG_MIN`, above `LONG_MAX` it is `LONG_MAX`. -/
def saturateLong (x : Int) : Int :=
  if x < -9223372036854775808 then -9223372036854775808
  else if 9223372036854775807 < x then 9223372036854775807
  else x

/-- C `strtol(s, NULL, 10)` with a 64-bit `long`: skip white space, read an optional
sign, then the longest run of decimal digits; no digits gives 0; a value outside the
range of `long` gives `LONG_MIN` or `LONG_MAX`. -/
def strtol (s : String) : Int :=
  match s.data.dropWhile isspace with
  | '-' :: rest => saturateLong (-(digitsValue 0 rest : Int))
  | '+' :: rest => saturateLong (digitsValue 0 rest)
  | cs => saturateLong (digitsValue 0 cs)

/-- C `atoi` as the C library computes it, `(int) strtol(s, NULL, 10)`: the `long`
result of `strtol`, saturated, converted to `int` by keeping its low 32 bits.  Within
the range of `int` this is the number written; the C standard leaves the result for
other numbers open, and the library yields -1 above `LONG_MAX` and 0 below `LONG_MIN`. -/
def atoi (s : String) : Int := toInt32 (strtol s)

/-! ## Settings store and the state `parseArgs` writes -/

/-- Modelled from the spec: the `Settings` singleton of es-core (its source is not part
of the sources at hand) holds the configuration, among it the integer VRAM budget; it is
taken as one name-to-value map per type, `setBool` / `setInt` assigning one entry. -/
structure Settings where
  mBoolMap : String → Option Bool
  mIntMap : String → Option Int

/-- Assignment `mBoolMap[name] = value`. -/
def Settings.setBool (s : Settings) (name : String) (value : Bool) : Settings :=
  { s with mBoolMap := fun n => if n = name then some value else s.mBoolMap n }

/-- Assignment `mIntMap[name] = value`. -/
def Settings.setInt (s : Settings) (name : String) (value : Int) : Settings :=
  { s with mIntMap := fun n => if n = name then some value else s.mIntMap n }

/-- Lookup of an integer setting. -/
def Settings.getInt (s : Settings) (name : String) : Option Int := s.mIntMap name

/-- Log reporting levels. -/
inductive LogLevel where
  | LogError | LogWarning | LogInfo | LogDebug
  deriving DecidableEq, Repr

/-- Everything `parseArgs` can write: the two out-parameters, the settings singleton, the
global `scrape_cmdline`, the log level and the two output streams. -/
structure ArgsState where
  width : Nat
  height : Nat
  settings : Settings
  scrape_cmdline : Bool
  reportingLevel : LogLevel
  cerr : List String
  helpPrinted : Bool

/-- Outcome of one pass through the body of the `for` loop of `parseArgs`: a `return`, or
falling through to the loop's `i++` with the current value of `i`. -/
inductive Flow where
  | ret (b : Bool) (st : ArgsState)
  | fall (i : Nat) (st : ArgsState)

/-- Body of the `for` loop of `parseArgs` at index `i < argc`.  `argv` lists
`argv[0] .. argv[argc-1]`; `argv[argc]` is the terminating null pointer, and handing it
to `strcmp` or `atoi` is undefined (`none`). -/
def parseArgsBody (argv : List String) (i : Nat) (h : i < argv.length) (st : ArgsState) :
    Option Flow :=
  let arg := argv[i]
  if arg = "--resolution" then
    if (i : Int) ≥ (argv.length : Int) - 2 then
      some (.ret false { st with cerr := st.cerr ++ ["Invalid resolution supplied."] })
    else
      match argv[i + 1]?, argv[i + 2]? with
      | some a1, some a2 =>
        some (.fall (i + 2) { st with width := toUnsigned (atoi a1), height := toUnsigned (atoi a2) })
      | _, _ => none
  else if arg = "--gamelist-only" then
    some (.fall i { st with settings := st.settings.setBool "ParseGamelistOnly" true })
  else if arg = "--ignore-gamelist" then
    some (.fall i { st with settings := st.settings.setBool "IgnoreGamelist" true })
  else if arg = "--draw-framerate" then
    some (.fall i { st with settings := st.settings.setBool "DrawFramerate" true })
  else if arg = "--no-exit" then
    some (.fall i { st with settings := st.settings.setBool "ShowExit" false })
  else if arg = "--debug" then
    some (.fall i { st with
      settings := (st.settings.setBool "Debug" true).setBool "HideConsole" false,
      reportingLevel := .LogDebug })
  else if arg = "--windowed" then
    some (.fall i { st with settings := st.settings.setBool "Windowed" true })
  else if arg = "--vsync" then
    match argv[i + 1]? with
    | some v =>
      let vsync := if v = "on" ∨ v = "1" then true else false
      some (.fall (i + 1) { st with settings := st.settings.setBool "VSync" vsync })
    | none => none
  else if arg = "--scrape" then
    some (.fall i { st with scrape_cmdline := true })
  else if arg = "--max-vram" then
    match argv[i + 1]? with
    | some v =>
      let maxVRAM := atoi v
      some (.fall i { st with settings := st.settings.setInt "MaxVRAM" maxVRAM })
    | none => none
  else if arg = "--help" ∨ arg = "-h" then
    some (.ret false { st with helpPrinted := true })
  else
    some (.fall i st)

/-- The `for(int i = ...; i < argc; i++)` loop of `parseArgs`, one unit of fuel per test
of the loop condition. -/
def parseArgsLoop : Nat → List String → Nat → ArgsState → Option (Bool × ArgsState)
  | 0, _, _, _ => none
  | fuel + 1, argv, i, st =>
    if h : i < argv.length then
      match parseArgsBody argv i h st with
      | none => none
      | some (.ret b st1) => some (b, st1)
      | some (.fall i1 st1) => parseArgsLoop fuel argv (i1 + 1) st1
    else some (true, st)

/-- The function `parseArgs(argc, argv, &width, &height)`: the loop starts at `i = 1`;
its condition is tested at most `argc + 1` times. -/
def parseArgs (argv : List String) (st : ArgsState) : Option (Bool × ArgsState) :=
  parseArgsLoop (argv.length + 1) argv 1 st

/-! ## Frame time of the main loop -/

/-- Lines 435-443 of `main`: `ticks` is the `Uint32` returned by `SDL_GetTicks()`,
`lastTime` the `int` kept from the previous frame.  Returns the `deltaTime` handed to
`window.update` and the new `lastTime`.  The `int` subtraction wraps to 32 bits. -/
def frameDelta (ticks : Nat) (lastTime : Int) : Int × Int :=
  let curTime := toInt32 ticks
  let deltaTime := toInt32 (curTime - lastTime)
  let lastTime1 := curTime
  let deltaTime1 := if deltaTime > 1000 ∨ deltaTime < 0 then 1000 else deltaTime
  (deltaTime1, lastTime1)

/-- State on entry to `main`'s call: `width = height = 0`, given settings. -/
def entryState (s : Settings) : ArgsState :=
  { width := 0, height := 0, settings := s, scrape_cmdline := false,
    reportingLevel := .LogInfo, cerr := [], helpPrinted := false }

/-- A settings store with the VRAM budget preset to 100. -/
def settings100 : Settings :=
  { mBoolMap := fun _ => none, mIntMap := fun n => if n = "MaxVRAM" then some 100 else none }

/-- State carried by a loop-body outcome. -/
def Flow.st : Flow → ArgsState
  | .ret _ st => st
  | .fall _ st => st

/-! ## Reading the command line the way the help text describes it -/

/-- An argument at which the scan ends: `--help`, `-h`, or `--resolution` with fewer
than two arguments after it. -/
def stopsAt (argv : List String) (i : Nat) : Bool :=
  decide (argv[i]? = some "--help") || decide (argv[i]? = some "-h") ||
    (decide (argv[i]? = some "--resolution") && decide (argv.length - 1 - i < 2))

/-- Number of following arguments the option at index `i` consumes: two for
`--resolution`, one for `--vsync`, none for anything else. -/
def consumed (argv : List String) (i : Nat) : Nat :=
  if argv[i]? = some "--resolution" then 2 else if argv[i]? = some "--vsync" then 1 else 0

/-- Indices examined by a left-to-right scan from index `i`, ending at the first
argument at which the scan stops. -/
def reachedFrom : Nat → List String → Nat → List Nat
  | 0, _, _ => []
  | fuel + 1, argv, i =>
    if i < argv.length then
      if stopsAt argv i then [i] else i :: reachedFrom fuel argv (i + consumed argv i + 1)
    else []

/-- Indices of the arguments the scan reaches, starting after the program name. -/
def reached (argv : List String) : List Nat := reachedFrom (argv.length + 1) argv 1

/-- Index of the last reached occurrence of option `opt`. -/
def lastReached (opt : String) (argv : List String) : Option Nat :=
  ((reached argv).filter (fun j => decide (argv[j]? = some opt))).getLast?

/-- Every reached `--vsync` and `--max-vram` has an argument after it, so that the
read of `argv[i + 1]` is the read of a string. -/
def ReadsDefined (argv : List String) : Prop :=
  ∀ j ∈ reached argv, (argv[j]? = some "--vsync" ∨ argv[j]? = some "--max-vram") →
    j + 1 < argv.length

/-- A non-empty string of decimal digits. -/
def isDecimal (s : String) : Bool := !s.data.isEmpty && s.data.all isdigit

/-- The number a string of decimal digits denotes. -/
def decimalValue (s : String) : Nat :=
  Nat.ofDigits 10 (s.data.reverse.map (fun c => c.toNat - 48))

/-- Values of the decimal numerals that follow the reached `--max-vram` options, in
the order of the scan. -/
def decimalMaxVrams (argv : List String) : List Nat :=
  ((reached argv).filter (fun j =>
      decide (argv[j]? = some "--max-vram") && isDecimal (argv[j + 1]?.getD ""))).map
    (fun j => decimalValue (argv[j + 1]?.getD ""))

/-! ## Texture data manager and texture handles -/

/-- The dedup key `typedef std::pair<std::string, bool> TextureKeyType`: source path and
tiling flag. -/
structure TextureKeyType where
  path : String
  tile : Bool
  deriving DecidableEq, Repr

/-- Modelled from the spec: the texture data unit (`TextureData`, whose source is not
part of the sources at hand).  `id` is the identity of the object, `bytes` its byte size
(width x height x 4), `refs` the count of active references, `resident` whether it holds
a GPU object and so counts against the budget. -/
structure TextureData where
  id : Nat
  key : TextureKeyType
  bytes : Nat
  refs : Nat
  forceLoad : Bool
  dynamic : Bool
  inMemory : Bool
  resident : Bool
  deriving DecidableEq, Repr

/-- Modelled from the spec: a resident unit is eligible for eviction when it has zero
active references and is neither force-loaded nor in-memory (nor exempted by its dynamic
eviction flag). -/
def TextureData.evictable (u : TextureData) : Bool :=
  u.resident && decide (u.refs = 0) && !u.forceLoad && !u.inMemory && u.dynamic

/-- Modelled from the spec: the texture data manager (`TextureDataManager`, whose source
is not part of the sources at hand): the table of units, kept most recently used first,
the running sum of resident bytes, and the VRAM budget in bytes (0 = unlimited). -/
structure TextureDataManager where
  units : List TextureData
  residentBytes : Nat
  budget : Nat
  nextId : Nat
  deriving DecidableEq, Repr

/-- Modelled from the spec: the manager's mapping from key to unit, looked up. -/
def TextureDataManager.find (m : TextureDataManager) (key : TextureKeyType) :
    Option TextureData :=
  m.units.find? (fun u => decide (u.key = key))

/-- Modelled from the spec: `acquire(key)` returns the existing unit for the key,
incrementing its reference count, else creates, registers and returns a new one.
`bytes` is the size the image at that path decodes to. -/
def TextureDataManager.acquire (m : TextureDataManager) (key : TextureKeyType)
    (bytes : Nat) (forceLoad dynamic : Bool) : TextureData × TextureDataManager :=
  match m.find key with
  | some u =>
    let u1 := { u with refs := u.refs + 1 }
    (u1, { m with units := m.units.map (fun v => if v.id = u.id then u1 else v) })
  | none =>
    let u : TextureData :=
      { id := m.nextId, key := key, bytes := bytes, refs := 1, forceLoad := forceLoad,
        dynamic := dynamic, inMemory := false, resident := false }
    (u, { m with units := m.units ++ [u], nextId := m.nextId + 1 })

/-- Modelled from the spec: `release(key)` decrements the reference count; the unit is
kept, resident or not, as a cold entry. -/
def TextureDataManager.release (m : TextureDataManager) (key : TextureKeyType) :
    TextureDataManager :=
  { m with units := m.units.map (fun v => if v.key = key then { v with refs := v.refs - 1 } else v) }

/-- Modelled from the spec: a unit is destroyed only when nothing references it; its GPU
storage goes with it. -/
def TextureDataManager.purge (m : TextureDataManager) (key : TextureKeyType) :
    TextureDataManager :=
  match m.find key with
  | none => m
  | some u =>
    if u.refs = 0 then
      { m with
        units := m.units.filter (fun v => decide (v.id ≠ u.id)),
        residentBytes := if u.resident then m.residentBytes - u.bytes else m.residentBytes }
    else m

/-- Modelled from the spec: the eviction pass of `ensureResident`, over the units from
least to most recently used: while the projected resident bytes plus the size `need` of
the unit to bind exceed the budget, release the GPU storage of each eligible unit. -/
def evictLRU (budget need : Nat) : List TextureData → Nat → List TextureData × Nat
  | [], rb => ([], rb)
  | u :: us, rb =>
    if rb + need ≤ budget then (u :: us, rb)
    else if u.evictable then
      let r := evictLRU budget need us (rb - u.bytes)
      ({ u with resident := false } :: r.1, r.2)
    else
      let r := evictLRU budget need us rb
      (u :: r.1, r.2)

/-- Modelled from the spec: `ensureResident(key)`, called just before a bind.  A resident
unit only becomes the most recently used.  For a unit that is not resident, eligible
units are evicted, least recently used first, until the unit fits the budget or none is
left (a budget of 0 means no limit), and the unit is uploaded. -/
def TextureDataManager.ensureResident (m : TextureDataManager) (key : TextureKeyType) :
    TextureDataManager :=
  match m.find key with
  | none => m
  | some u =>
    if u.resident then
      { m with units := u :: m.units.filter (fun v => decide (v.id ≠ u.id)) }
    else
      let r :=
        if m.budget = 0 then (m.units.reverse, m.residentBytes)
        else evictLRU m.budget u.bytes m.units.reverse m.residentBytes
      { m with
        units := { u with resident := true } :: r.1.reverse.filter (fun v => decide (v.id ≠ u.id)),
        residentBytes := r.2 + u.bytes }

/-- Modelled from the spec: `totalResidentBytes()`, reported by
`TextureResource::getTotalMemUsage`. -/
def TextureDataManager.totalResidentBytes (m : TextureDataManager) : Nat := m.residentBytes

/-- Sum of the byte sizes of the resident units of a list. -/
def residentSum (us : List TextureData) : Nat :=
  ((us.filter (fun u => u.resident)).map (fun u => u.bytes)).sum

/-- The manager's data invariant: unit identities are distinct and the running sum
equals the sum of the resident units' byte sizes. -/
def TextureDataManager.WF (m : TextureDataManager) : Prop :=
  (m.units.map (fun u => u.id)).Nodup ∧ m.residentBytes = residentSum m.units

/-- A texture handle (`TextureResource` object): its identity, its dedup key, the
identity of the texture data unit backing it, and the force-load flag `mForceLoad`. -/
structure TextureResource where
  id : Nat
  key : TextureKeyType
  unit : Nat
  mForceLoad : Bool
  deriving DecidableEq, Repr

/-- The static state of `TextureResource`: the dedup map `sTextureMap` of weak entries
(key to handle identity), the set `sAllTextures` of live handles, the manager
`sTextureDataManager`, and the next fresh handle identity. -/
structure World where
  sTextureMap : List (TextureKeyType × Nat)
  sAllTextures : List TextureResource
  sTextureDataManager : TextureDataManager
  nextHandle : Nat
  deriving DecidableEq, Repr

/-- Modelled from the spec: lookup in the dedup map.  The weak entry for the key is
locked; an entry whose handle has been destroyed has expired and yields nothing. -/
def World.lookup (w : World) (key : TextureKeyType) : Option TextureResource :=
  match w.sTextureMap.find? (fun e => decide (e.1 = key)) with
  | none => none
  | some e => w.sAllTextures.find? (fun h => decide (h.id = e.2))

/-- Modelled from the spec: `TextureResource::get(path, tile, forceLoad, dynamic)` (its
definition is not part of the sources at hand) looks up (path, tile) in the dedup map and
returns the existing handle if a live one exists; otherwise it constructs a new handle,
registers it in the dedup map as a weak entry, and registers with the manager.  `bytes`
is the size the image at `path` decodes to. -/
def TextureResource.get (w : World) (path : String) (tile forceLoad dynamic : Bool)
    (bytes : Nat) : TextureResource × World :=
  let key : TextureKeyType := { path := path, tile := tile }
  match w.lookup key with
  | some h => (h, w)
  | none =>
    let r := w.sTextureDataManager.acquire key bytes forceLoad dynamic
    let h : TextureResource :=
      { id := w.nextHandle, key := key, unit := r.1.id, mForceLoad := forceLoad }
    (h, { sTextureMap := (key, h.id) :: w.sTextureMap.filter (fun e => decide (e.1 ≠ key)),
          sAllTextures := h :: w.sAllTextures,
          sTextureDataManager := r.2,
          nextHandle := w.nextHandle + 1 })

/-- Modelled from the spec: destruction of a handle, when its last owning reference
drops: it removes itself from the dedup map and releases its unit at the manager. -/
def World.destroy (w : World) (hid : Nat) : World :=
  match w.sAllTextures.find? (fun h => decide (h.id = hid)) with
  | none => w
  | some h =>
    { w with
      sTextureMap := w.sTextureMap.filter (fun e => decide (e.2 ≠ hid)),
      sAllTextures := w.sAllTextures.filter (fun g => decide (g.id ≠ hid)),
      sTextureDataManager := w.sTextureDataManager.release h.key }

/-- Modelled from the spec: `bind()` on a live handle calls `ensureResident` for its
unit. -/
def World.bind (w : World) (hid : Nat) : World :=
  match w.sAllTextures.find? (fun h => decide (h.id = hid)) with
  | none => w
  | some h => { w with sTextureDataManager := w.sTextureDataManager.ensureResident h.key }

/-- Modelled from the spec: the operations that change the texture state: a request
`get`, the destruction of a handle, a `bind`, and the manager dropping an unreferenced
unit. -/
inductive Op where
  | get (path : String) (tile forceLoad dynamic : Bool) (bytes : Nat)
  | destroy (hid : Nat)
  | bind (hid : Nat)
  | purge (key : TextureKeyType)
  deriving DecidableEq, Repr

/-- One operation. -/
def World.step (w : World) : Op → World
  | .get path tile forceLoad dynamic bytes =>
    (TextureResource.get w path tile forceLoad dynamic bytes).2
  | .destroy hid => w.destroy hid
  | .bind hid => w.bind hid
  | .purge key => { w with sTextureDataManager := w.sTextureDataManager.purge key }

/-- A sequence of operations, left to right. -/
def World.run (w : World) (ops : List Op) : World := ops.foldl World.step w

/-- The state at start-up: nothing loaded, the given VRAM budget in bytes. -/
def World.init (budget : Nat) : World :=
  { sTextureMap := [], sAllTextures := [],
    sTextureDataManager := { units := [], residentBytes := 0, budget := budget, nextId := 0 },
    nextHandle := 0 }

/-- The handle with identity `hid` is alive. -/
def World.alive (w : World) (hid : Nat) : Prop := ∃ g ∈ w.sAllTextures, g.id = hid

/-- Structural invariant of the manager's table: unit identities are distinct and
below the next fresh identity. -/
def TextureDataManager.Inv (m : TextureDataManager) : Prop :=
  (m.units.map (fun u => u.id)).Nodup ∧ ∀ u ∈ m.units, u.id < m.nextId

/-- The table holds a referenced unit with identity `i` for key `k`. -/
def TextureDataManager.Backs (m : TextureDataManager) (i : Nat) (k : TextureKeyType) : Prop :=
  ∃ u ∈ m.units, u.id = i ∧ u.key = k ∧ 0 < u.refs

/-- The table `m1` is a later stage of `m`: identities are never reused, and a unit that
carries an identity already handed out in `m` is the unit `m` had, under the same key. -/
def TextureDataManager.Ext (m m1 : TextureDataManager) : Prop :=
  m.nextId ≤ m1.nextId ∧
  ∀ u1 ∈ m1.units, u1.id < m.nextId → ∃ u ∈ m.units, u.id = u1.id ∧ u.key = u1.key

/-- Invariant of the static texture state: live handles have distinct identities below
the next fresh one, each is registered in the dedup map under its own key, the map has
one entry per key, and each is backed by a referenced unit of the manager for its key. -/
structure World.Inv (w : World) : Prop where
  id_lt : ∀ h ∈ w.sAllTextures, h.id < w.nextHandle
  id_inj : ∀ h ∈ w.sAllTextures, ∀ g ∈ w.sAllTextures, h.id = g.id → h = g
  registered : ∀ h ∈ w.sAllTextures, (h.key, h.id) ∈ w.sTextureMap
  map_fun : ∀ e ∈ w.sTextureMap, ∀ f ∈ w.sTextureMap, e.1 = f.1 → e = f
  map_lt : ∀ e ∈ w.sTextureMap, e.2 < w.nextHandle
  entry_key : ∀ e ∈ w.sTextureMap, ∀ h ∈ w.sAllTextures, h.id = e.2 → h.key = e.1
  manager : w.sTextureDataManager.Inv
  backed : ∀ h ∈ w.sAllTextures, w.sTextureDataManager.Backs h.unit h.key

/-- The state `w1` is a later stage of `w`: handle identities are never reused, a live
handle of `w1` with an identity handed out in `w` is a live handle of `w`, and the same
for the manager's units. -/
structure World.Ext (w w1 : World) : Prop where
  next_le : w.nextHandle ≤ w1.nextHandle
  old : ∀ g ∈ w1.sAllTextures, g.id < w.nextHandle → g ∈ w.sAllTextures
  manager : w.sTextureDataManager.Ext w1.sTextureDataManager

/-! ## The loop body, one argument at a time -/

/-- An index below `argc` reads a string. -/
theorem getElem?_of_lt (argv : List String) (i : Nat) (h : i < argv.length) :
    argv[i]? = some argv[i] := List.getElem?_eq_getElem h


/-- What one pass through the body does, read off the scan: where control goes, what
happens to `*width` / `*height`, and what happens to the integer settings. -/
theorem parseArgsBody_spec (argv : List String) (i : Nat) (h : i < argv.length)
    (st : ArgsState) (fl : Flow) (hb : parseArgsBody argv i h st = some fl) :
    (stopsAt argv i = true → ∃ st1, fl = .ret false st1) ∧
    (stopsAt argv i = false → ∃ st1, fl = .fall (i + consumed argv i) st1) ∧
    ((fl.st.width, fl.st.height) =
      if argv[i]? = some "--resolution" ∧ stopsAt argv i = false then
        (toUnsigned (atoi (argv[i + 1]?.getD "")), toUnsigned (atoi (argv[i + 2]?.getD "")))
      else (st.width, st.height)) ∧
    (fl.st.settings.mIntMap =
      if argv[i]? = some "--max-vram" then
        (st.settings.setInt "MaxVRAM" (atoi (argv[i + 1]?.getD ""))).mIntMap
      else st.settings.mIntMap) ∧
    (argv[i]? = some "--max-vram" → i + 1 < argv.length) := by
  have hA0 := getElem?_of_lt argv i h
  unfold stopsAt consumed
  rw [hA0]
  unfold parseArgsBody at hb
  simp only [] at hb
  generalize argv[i] = a at hb ⊢
  by_cases h1 : a = "--resolution"
  · rw [if_pos h1] at hb
    subst h1
    split at hb
    · cases hb
      rename_i h2
      have h3 : argv.length - 1 - i < 2 := by omega
      simp [Flow.st, h3]
    · rename_i h2
      have h3 : ¬ (argv.length - 1 - i < 2) := by omega
      split at hb
      · cases hb
        rename_i e1 e2
        simp [Flow.st, h3, e1, e2]
      · cases hb
  rw [if_neg h1] at hb
  by_cases h2 : a = "--gamelist-only"
  · rw [if_pos h2] at hb
    simp only [Option.some.injEq] at hb
    subst hb
    subst h2
    simp [Flow.st, Settings.setBool]
  rw [if_neg h2] at hb
  by_cases h3 : a = "--ignore-gamelist"
  · rw [if_pos h3] at hb
    simp only [Option.some.injEq] at hb
    subst hb
    subst h3
    simp [Flow.st, Settings.setBool]
  rw [if_neg h3] at hb
  by_cases h4 : a = "--draw-framerate"
  · rw [if_pos h4] at hb
    simp only [Option.some.injEq] at hb
    subst hb
    subst h4
    simp [Flow.st, Settings.setBool]
  rw [if_neg h4] at hb
  by_cases h5 : a = "--no-exit"
  · rw [if_pos h5] at hb
    simp only [Option.some.injEq] at hb
    subst hb
    subst h5
    simp [Flow.st, Settings.setBool]
  rw [if_neg h5] at hb
  by_cases h6 : a = "--debug"
  · rw [if_pos h6] at hb
    simp only [Option.some.injEq] at hb
    subst hb
    subst h6
    simp [Flow.st, Settings.setBool]
  rw [if_neg h6] at hb
  by_cases h7 : a = "--windowed"
  · rw [if_pos h7] at hb
    simp only [Option.some.injEq] at hb
    subst hb
    subst h7
    simp [Flow.st, Settings.setBool]
  rw [if_neg h7] at hb
  by_cases h8 : a = "--vsync"
  · rw [if_pos h8] at hb
    subst h8
    split at hb
    · simp only [Option.some.injEq] at hb
      subst hb
      simp [Flow.st, Settings.setBool]
    · exact absurd hb (by simp)
  rw [if_neg h8] at hb
  by_cases h9 : a = "--scrape"
  · rw [if_pos h9] at hb
    simp only [Option.some.injEq] at hb
    subst hb
    subst h9
    simp [Flow.st, Settings.setBool]
  rw [if_neg h9] at hb
  by_cases h10 : a = "--max-vram"
  · rw [if_pos h10] at hb
    subst h10
    split at hb
    · simp only [Option.some.injEq] at hb
      subst hb
      rename_i v e1
      have e2 : i + 1 < argv.length := (List.getElem?_eq_some.mp e1).1
      simp [Flow.st, Settings.setInt, e1, e2]
    · exact absurd hb (by simp)
  rw [if_neg h10] at hb
  by_cases h11 : a = "--help" ∨ a = "-h"
  · rw [if_pos h11] at hb
    simp only [Option.some.injEq] at hb
    subst hb
    rcases h11 with h | h <;> subst h <;> simp [Flow.st]
  rw [if_neg h11] at hb
  simp only [Option.some.injEq] at hb
  subst hb
  simp only [not_or] at h11
  simp [Flow.st, h1, h8, h10, h11.1, h11.2]

/-- With the reads of `argv[i + 1]` defined, the body yields an outcome. -/
theorem parseArgsBody_defined (argv : List String) (i : Nat) (h : i < argv.length)
    (st : ArgsState)
    (hd : (argv[i]? = some "--vsync" ∨ argv[i]? = some "--max-vram") → i + 1 < argv.length) :
    ∃ fl, parseArgsBody argv i h st = some fl := by
  rw [getElem?_of_lt argv i h] at hd
  simp only [Option.some.injEq] at hd
  unfold parseArgsBody
  simp only []
  generalize argv[i] = a at hd ⊢
  by_cases h1 : a = "--resolution"
  · rw [if_pos h1]
    by_cases h2 : (i : Int) ≥ (argv.length : Int) - 2
    · rw [if_pos h2]; exact ⟨_, rfl⟩
    · rw [if_neg h2]
      have e1 : i + 1 < argv.length := by omega
      have e2 : i + 2 < argv.length := by omega
      rw [List.getElem?_eq_getElem e1, List.getElem?_eq_getElem e2]
      exact ⟨_, rfl⟩
  rw [if_neg h1]
  by_cases h2 : a = "--gamelist-only"
  · rw [if_pos h2]; exact ⟨_, rfl⟩
  rw [if_neg h2]
  by_cases h3 : a = "--ignore-gamelist"
  · rw [if_pos h3]; exact ⟨_, rfl⟩
  rw [if_neg h3]
  by_cases h4 : a = "--draw-framerate"
  · rw [if_pos h4]; exact ⟨_, rfl⟩
  rw [if_neg h4]
  by_cases h5 : a = "--no-exit"
  · rw [if_pos h5]; exact ⟨_, rfl⟩
  rw [if_neg h5]
  by_cases h6 : a = "--debug"
  · rw [if_pos h6]; exact ⟨_, rfl⟩
  rw [if_neg h6]
  by_cases h7 : a = "--windowed"
  · rw [if_pos h7]; exact ⟨_, rfl⟩
  rw [if_neg h7]
  by_cases h8 : a = "--vsync"
  · rw [if_pos h8]
    rw [List.getElem?_eq_getElem (hd (Or.inl h8))]
    exact ⟨_, rfl⟩
  rw [if_neg h8]
  by_cases h9 : a = "--scrape"
  · rw [if_pos h9]; exact ⟨_, rfl⟩
  rw [if_neg h9]
  by_cases h10 : a = "--max-vram"
  · rw [if_pos h10]
    rw [List.getElem?_eq_getElem (hd (Or.inr h10))]
    exact ⟨_, rfl⟩
  rw [if_neg h10]
  by_cases h11 : a = "--help" ∨ a = "-h"
  · rw [if_pos h11]; exact ⟨_, rfl⟩
  rw [if_neg h11]
  exact ⟨_, rfl⟩

/-- A non-stopping argument leaves the next index within `argc`, provided its reads
are defined. -/
theorem next_index_le (argv : List String) (i : Nat) (h : i < argv.length)
    (hs : stopsAt argv i = false)
    (hd : (argv[i]? = some "--vsync" ∨ argv[i]? = some "--max-vram") → i + 1 < argv.length) :
    i + consumed argv i + 1 ≤ argv.length + 1 := by
  unfold consumed
  unfold stopsAt at hs
  by_cases h1 : argv[i]? = some "--resolution"
  · simp [h1] at hs
    rw [if_pos h1]
    omega
  · rw [if_neg h1]
    by_cases h2 : argv[i]? = some "--vsync"
    · rw [if_pos h2]
      have := hd (Or.inl h2)
      omega
    · rw [if_neg h2]
      omega

/-- The loop, given fuel for every test of its condition and defined reads, returns;
it returns `false` exactly when the scan reaches a stopping argument. -/
theorem parseArgsLoop_ret (argv : List String) :
    ∀ (fuel i : Nat) (st : ArgsState), argv.length + 2 ≤ fuel + i → i ≤ argv.length + 1 →
      (∀ j ∈ reachedFrom fuel argv i,
        (argv[j]? = some "--vsync" ∨ argv[j]? = some "--max-vram") → j + 1 < argv.length) →
      ∃ r, parseArgsLoop fuel argv i st = some r ∧
        (r.1 = false ↔ ∃ j ∈ reachedFrom fuel argv i, stopsAt argv j = true) := by
  intro fuel
  induction fuel with
  | zero => intro i st h1 h2; omega
  | succ fuel ih =>
    intro i st hf hi hd
    unfold parseArgsLoop
    by_cases h : i < argv.length
    · rw [dif_pos h]
      have hmem : i ∈ reachedFrom (fuel + 1) argv i := by
        unfold reachedFrom
        rw [if_pos h]
        split <;> simp
      obtain ⟨fl, hb⟩ := parseArgsBody_defined argv i h st (hd i hmem)
      have hspec := parseArgsBody_spec argv i h st fl hb
      rw [hb]
      cases hs : stopsAt argv i with
      | true =>
        obtain ⟨st1, rfl⟩ := hspec.1 hs
        refine ⟨(false, st1), rfl, ?_⟩
        simp only [true_iff]
        exact ⟨i, hmem, hs⟩
      | false =>
        obtain ⟨st1, rfl⟩ := hspec.2.1 hs
        have hr : reachedFrom (fuel + 1) argv i
            = i :: reachedFrom fuel argv (i + consumed argv i + 1) := by
          conv_lhs => unfold reachedFrom
          rw [if_pos h, hs]
          simp
        have hnext := next_index_le argv i h hs (hd i hmem)
        have hd1 : ∀ j ∈ reachedFrom fuel argv (i + consumed argv i + 1),
            (argv[j]? = some "--vsync" ∨ argv[j]? = some "--max-vram") → j + 1 < argv.length := by
          intro j hj
          exact hd j (by rw [hr]; exact List.mem_cons_of_mem _ hj)
        obtain ⟨r, hr1, hr2⟩ := ih (i + consumed argv i + 1) st1 (by omega) hnext hd1
        refine ⟨r, hr1, ?_⟩
        rw [hr2, hr]
        constructor
        · rintro ⟨j, hj, hsj⟩
          exact ⟨j, List.mem_cons_of_mem _ hj, hsj⟩
        · rintro ⟨j, hj, hsj⟩
          rcases List.mem_cons.mp hj with rfl | hj
          · rw [hs] at hsj; exact absurd hsj (by decide)
          · exact ⟨j, hj, hsj⟩
    · rw [dif_neg h]
      refine ⟨(true, st), rfl, ?_⟩
      have hr : reachedFrom (fuel + 1) argv i = [] := by
        unfold reachedFrom
        rw [if_neg h]
      rw [hr]
      simp


/-- Last element of a filtered list, one element at a time. -/
theorem getLast?_filter_cons (p : Nat → Bool) (i : Nat) (L : List Nat) :
    ((i :: L).filter p).getLast? =
      match (L.filter p).getLast? with
      | some j => some j
      | none => if p i = true then some i else none := by
  rw [List.filter_cons]
  by_cases hp : p i = true
  · rw [if_pos hp, List.getLast?_cons]
    cases (L.filter p).getLast? <;> simp [hp]
  · rw [if_neg hp]
    cases (L.filter p).getLast? <;> simp [hp]

/-- Unfolding of the scan at a non-stopping argument. -/
theorem reachedFrom_succ_of_not_stop (argv : List String) (fuel i : Nat)
    (h : i < argv.length) (hs : stopsAt argv i = false) :
    reachedFrom (fuel + 1) argv i = i :: reachedFrom fuel argv (i + consumed argv i + 1) := by
  conv_lhs => unfold reachedFrom
  rw [if_pos h, hs]
  simp

/-- Unfolding of the scan at a stopping argument. -/
theorem reachedFrom_succ_of_stop (argv : List String) (fuel i : Nat)
    (h : i < argv.length) (hs : stopsAt argv i = true) :
    reachedFrom (fuel + 1) argv i = [i] := by
  conv_lhs => unfold reachedFrom
  rw [if_pos h, hs]
  simp

/-- When the loop returns `true`, `*width` and `*height` hold what the last reached
`--resolution` stored, or their entry values when none was reached. -/
theorem parseArgsLoop_size (argv : List String) :
    ∀ (fuel i : Nat) (st st1 : ArgsState), parseArgsLoop fuel argv i st = some (true, st1) →
      (((reachedFrom fuel argv i).filter
          (fun j => decide (argv[j]? = some "--resolution"))).getLast? = none →
        st1.width = st.width ∧ st1.height = st.height) ∧
      (∀ j, ((reachedFrom fuel argv i).filter
          (fun j => decide (argv[j]? = some "--resolution"))).getLast? = some j →
        ∃ a1 a2, argv[j + 1]? = some a1 ∧ argv[j + 2]? = some a2 ∧
          st1.width = toUnsigned (atoi a1) ∧ st1.height = toUnsigned (atoi a2)) := by
  intro fuel
  induction fuel with
  | zero => intro i st st1 hl; simp [parseArgsLoop] at hl
  | succ fuel ih =>
    intro i st st1 hl
    unfold parseArgsLoop at hl
    by_cases h : i < argv.length
    · rw [dif_pos h] at hl
      cases hb : parseArgsBody argv i h st with
      | none => rw [hb] at hl; simp at hl
      | some fl =>
        rw [hb] at hl
        have hspec := parseArgsBody_spec argv i h st fl hb
        cases hs : stopsAt argv i with
        | true =>
          obtain ⟨st2, rfl⟩ := hspec.1 hs
          simp at hl
        | false =>
          obtain ⟨st2, rfl⟩ := hspec.2.1 hs
          simp only [] at hl
          have hdim := hspec.2.2.1
          simp only [Flow.st, hs, and_true] at hdim
          obtain ⟨ih1, ih2⟩ := ih _ st2 st1 hl
          rw [reachedFrom_succ_of_not_stop argv fuel i h hs, getLast?_filter_cons]
          cases hL : ((reachedFrom fuel argv (i + consumed argv i + 1)).filter
              (fun j => decide (argv[j]? = some "--resolution"))).getLast? with
          | some j =>
            simp only [false_implies, Option.some.injEq, true_and, reduceCtorEq]
            intro j1 hj1
            subst hj1
            exact ih2 j hL
          | none =>
            obtain ⟨hw, hh⟩ := ih1 hL
            by_cases hr : argv[i]? = some "--resolution"
            · rw [if_pos hr] at hdim
              simp only [Prod.mk.injEq] at hdim
              have hlen : i + 2 < argv.length := by
                unfold stopsAt at hs
                simp [hr] at hs
                omega
              have e1 : i + 1 < argv.length := by omega
              simp only [hr, decide_True, if_true, Option.some.injEq, reduceCtorEq,
                false_implies, true_and]
              intro j1 hj1
              subst hj1
              refine ⟨argv[i + 1], argv[i + 2], List.getElem?_eq_getElem e1,
                List.getElem?_eq_getElem hlen, ?_, ?_⟩
              · rw [hw, hdim.1, List.getElem?_eq_getElem e1]; rfl
              · rw [hh, hdim.2, List.getElem?_eq_getElem hlen]; rfl
            · rw [if_neg hr] at hdim
              simp only [Prod.mk.injEq] at hdim
              simp only [hr, decide_False, Bool.false_eq_true, if_false, reduceCtorEq,
                false_implies, implies_true, and_true, true_implies]
              exact ⟨hw.trans hdim.1, hh.trans hdim.2⟩
    · rw [dif_neg h] at hl
      simp only [Option.some.injEq, Prod.mk.injEq, true_and] at hl
      subst hl
      have hr : reachedFrom (fuel + 1) argv i = [] := by
        unfold reachedFrom
        rw [if_neg h]
      rw [hr]
      simp


/-- Assigning an integer setting touches the integer map only through the assigned
name, so two stores with equal integer maps stay equal. -/
theorem setInt_congr (s t : Settings) (name : String) (v : Int)
    (h : s.mIntMap = t.mIntMap) : (s.setInt name v).mIntMap = (t.setInt name v).mIntMap := by
  unfold Settings.setInt
  simp only [h]

/-- A later assignment of the same name overrides an earlier one. -/
theorem setInt_setInt (s : Settings) (name : String) (v w : Int) :
    ((s.setInt name v).setInt name w).mIntMap = (s.setInt name w).mIntMap := by
  unfold Settings.setInt
  funext n
  by_cases hn : n = name <;> simp [hn]

/-- When the loop finishes, the integer settings are those on entry with `MaxVRAM`
assigned `atoi` of the argument after the last reached `--max-vram`, or those on
entry untouched when none was reached. -/
theorem parseArgsLoop_ints (argv : List String) :
    ∀ (fuel i : Nat) (st : ArgsState) (r : Bool × ArgsState),
      parseArgsLoop fuel argv i st = some r →
      (((reachedFrom fuel argv i).filter
          (fun j => decide (argv[j]? = some "--max-vram"))).getLast? = none →
        r.2.settings.mIntMap = st.settings.mIntMap) ∧
      (∀ j, ((reachedFrom fuel argv i).filter
          (fun j => decide (argv[j]? = some "--max-vram"))).getLast? = some j →
        ∃ v, argv[j + 1]? = some v ∧
          r.2.settings.mIntMap = (st.settings.setInt "MaxVRAM" (atoi v)).mIntMap) := by
  intro fuel
  induction fuel with
  | zero => intro i st r hl; simp [parseArgsLoop] at hl
  | succ fuel ih =>
    intro i st r hl
    unfold parseArgsLoop at hl
    by_cases h : i < argv.length
    · rw [dif_pos h] at hl
      cases hb : parseArgsBody argv i h st with
      | none => rw [hb] at hl; simp at hl
      | some fl =>
        rw [hb] at hl
        have hspec := parseArgsBody_spec argv i h st fl hb
        have hint := hspec.2.2.2.1
        have hlen := hspec.2.2.2.2
        cases hs : stopsAt argv i with
        | true =>
          obtain ⟨st2, rfl⟩ := hspec.1 hs
          simp only [Option.some.injEq] at hl
          subst hl
          have hm : ¬ argv[i]? = some "--max-vram" := by
            intro hm
            unfold stopsAt at hs
            simp [hm] at hs
          rw [if_neg hm] at hint
          rw [reachedFrom_succ_of_stop argv fuel i h hs]
          simp [List.filter_cons, hm]
          exact hint
        | false =>
          obtain ⟨st2, rfl⟩ := hspec.2.1 hs
          simp only [] at hl
          simp only [Flow.st] at hint
          obtain ⟨ih1, ih2⟩ := ih _ st2 r hl
          rw [reachedFrom_succ_of_not_stop argv fuel i h hs, getLast?_filter_cons]
          cases hL : ((reachedFrom fuel argv (i + consumed argv i + 1)).filter
              (fun j => decide (argv[j]? = some "--max-vram"))).getLast? with
          | some j =>
            simp only [false_implies, Option.some.injEq, true_and, reduceCtorEq]
            intro j1 hj1
            subst hj1
            obtain ⟨v, hv, hr⟩ := ih2 j hL
            refine ⟨v, hv, ?_⟩
            rw [hr]
            by_cases hm : argv[i]? = some "--max-vram"
            · rw [if_pos hm] at hint
              rw [setInt_congr st2.settings _ "MaxVRAM" (atoi v) hint]
              exact setInt_setInt _ _ _ _
            · rw [if_neg hm] at hint
              exact setInt_congr _ _ _ _ hint
          | none =>
            have hr := ih1 hL
            by_cases hm : argv[i]? = some "--max-vram"
            · rw [if_pos hm] at hint
              have e1 : i + 1 < argv.length := hlen hm
              simp only [hm, decide_True, if_true, Option.some.injEq, reduceCtorEq,
                false_implies, true_and]
              intro j1 hj1
              subst hj1
              refine ⟨argv[i + 1], List.getElem?_eq_getElem e1, ?_⟩
              rw [hr, hint, List.getElem?_eq_getElem e1]
              rfl
            · rw [if_neg hm] at hint
              simp only [hm, decide_False, Bool.false_eq_true, if_false, reduceCtorEq,
                false_implies, implies_true, and_true, true_implies]
              exact hr.trans hint
    · rw [dif_neg h] at hl
      simp only [Option.some.injEq] at hl
      subst hl
      have hr : reachedFrom (fuel + 1) argv i = [] := by
        unfold reachedFrom
        rw [if_neg h]
      rw [hr]
      simp

/-- On a run of digits `digitsValue` is positional decimal notation. -/
theorem digitsValue_all_digits :
    ∀ (cs : List Char) (acc : Nat), (∀ c ∈ cs, isdigit c = true) →
      digitsValue acc cs =
        acc * 10 ^ cs.length + Nat.ofDigits 10 (cs.reverse.map (fun c => c.toNat - 48)) := by
  intro cs
  induction cs with
  | nil => intro acc _; simp [digitsValue]
  | cons c cs ih =>
    intro acc h
    have hc : isdigit c = true := h c (List.mem_cons_self _ _)
    have hcs : ∀ d ∈ cs, isdigit d = true := fun d hd => h d (List.mem_cons_of_mem _ hd)
    unfold digitsValue
    rw [if_pos hc, ih _ hcs]
    simp only [List.reverse_cons, List.map_append, List.map_cons, List.map_nil,
      List.length_cons, Nat.ofDigits_append, Nat.ofDigits_singleton, List.length_map,
      List.length_reverse]
    ring

/-- On a decimal numeral within the range of `int`, `atoi` is the number denoted. -/
theorem atoi_decimal (s : String) (hs : isDecimal s = true)
    (hN : decimalValue s ≤ 2147483647) : atoi s = (decimalValue s : Int) := by
  unfold isDecimal at hs
  unfold decimalValue at hN ⊢
  unfold atoi strtol
  cases hdata : s.data with
  | nil => rw [hdata] at hs; simp at hs
  | cons c cs =>
    rw [hdata] at hs hN
    simp only [List.isEmpty_cons, Bool.not_false, Bool.true_and, List.all_eq_true] at hs
    have hc : isdigit c = true := hs c (List.mem_cons_self _ _)
    have hv := digitsValue_all_digits (c :: cs) 0 hs
    have hsp : isspace c = false := by
      unfold isdigit at hc
      unfold isspace
      simp only [Bool.and_eq_true, decide_eq_true_eq] at hc
      simp only [Bool.or_eq_false_iff, decide_eq_false_iff_not, Bool.and_eq_false_imp,
        decide_eq_true_eq]
      omega
    have hdrop : List.dropWhile isspace (c :: cs) = c :: cs := by
      rw [List.dropWhile_cons, hsp]
      simp
    rw [hdrop]
    have hminus : c ≠ '-' := by
      rintro rfl
      exact absurd hc (by decide)
    have hplus : c ≠ '+' := by
      rintro rfl
      exact absurd hc (by decide)
    simp only [zero_mul, zero_add] at hv
    have hval : toInt32 (saturateLong (digitsValue 0 (c :: cs) : Int))
        = ((Nat.ofDigits 10 ((c :: cs).reverse.map (fun c => c.toNat - 48)) : Nat) : Int) := by
      rw [hv]
      unfold saturateLong toInt32
      split_ifs <;> omega
    split
    · rename_i heq
      simp only [List.cons.injEq] at heq
      exact absurd heq.1 hminus
    · rename_i heq
      simp only [List.cons.injEq] at heq
      exact absurd heq.1 hplus
    · exact hval


/-- Outside the range of `int` and of `long`, `atoi` and the two options that call it
give what the C library gives: low 32 bits within `long`, -1 above it, 0 below it. -/
theorem atoi_out_of_range :
    atoi "2147483648" = -2147483648 ∧
    atoi "99999999999" = 1215752191 ∧
    atoi "99999999999999999999" = -1 ∧
    atoi "-99999999999999999999" = 0 ∧
    (parseArgs ["es", "--max-vram", "99999999999999999999"] (entryState settings100)).map
      (fun r => (r.1, r.2.settings.getInt "MaxVRAM")) = some (true, some (-1)) ∧
    (parseArgs ["es", "--resolution", "99999999999999999999", "-99999999999999999999"]
      (entryState settings100)).map
      (fun r => (r.1, r.2.width, r.2.height)) = some (true, 4294967295, 0) := by
  decide

/-! ## Command line: the claims -/

/-- C1 (as stated, refuted): after `es --max-vram 5 --max-vram abc` the last reached
`--max-vram` that is followed by a decimal integer carries 5, yet the setting "MaxVRAM"
ends as 0: the second `--max-vram`, followed by no number, wrote it as well. -/
theorem maxVram_nonnumeric_counterexample :
    reached ["es", "--max-vram", "5", "--max-vram", "abc"] = [1, 2, 3, 4] ∧
    (decimalMaxVrams ["es", "--max-vram", "5", "--max-vram", "abc"]).getLast? = some 5 ∧
    isDecimal "abc" = false ∧
    (parseArgs ["es", "--max-vram", "5", "--max-vram", "abc"] (entryState settings100)).map
      (fun r => (r.1, r.2.settings.getInt "MaxVRAM")) = some (true, some 0) := by
  decide

/-- C1 (amended): with every reached `--vsync` / `--max-vram` followed by an argument,
`parseArgs` finishes; if it reached no `--max-vram` the integer settings are exactly
those on entry; otherwise "MaxVRAM" equals `atoi` of the argument after the last
reached `--max-vram` (the number N itself when that argument is a decimal numeral N
within the range of `int`, 0 included), and no other integer setting changed. -/
theorem parseArgs_maxVram (argv : List String) (st : ArgsState) (hd : ReadsDefined argv) :
    ∃ r, parseArgs argv st = some r ∧
      (lastReached "--max-vram" argv = none → r.2.settings.mIntMap = st.settings.mIntMap) ∧
      (∀ j, lastReached "--max-vram" argv = some j →
        ∃ v, argv[j + 1]? = some v ∧
          r.2.settings.getInt "MaxVRAM" = some (atoi v) ∧
          (isDecimal v = true → decimalValue v ≤ 2147483647 →
            r.2.settings.getInt "MaxVRAM" = some (decimalValue v : Int)) ∧
          (∀ n, n ≠ "MaxVRAM" → r.2.settings.mIntMap n = st.settings.mIntMap n)) := by
  obtain ⟨r, hr, _⟩ :=
    parseArgsLoop_ret argv (argv.length + 1) 1 st (by omega) (by omega) hd
  obtain ⟨h1, h2⟩ := parseArgsLoop_ints argv (argv.length + 1) 1 st r hr
  refine ⟨r, hr, h1, ?_⟩
  intro j hj
  obtain ⟨v, hv, hm⟩ := h2 j hj
  have hget : r.2.settings.getInt "MaxVRAM" = some (atoi v) := by
    unfold Settings.getInt
    rw [hm]
    simp [Settings.setInt]
  refine ⟨v, hv, hget, ?_, ?_⟩
  · intro hdec hle
    rw [hget, atoi_decimal v hdec hle]
  · intro n hn
    rw [hm]
    simp [Settings.setInt, hn]

/-- The amended C1 at `es --max-vram 7 --help --max-vram 9`: the scan ends at `--help`,
the last reached `--max-vram` is the one at index 1. -/
theorem parseArgs_maxVram_witness :
    ReadsDefined ["es", "--max-vram", "7", "--help", "--max-vram", "9"] ∧
    lastReached "--max-vram" ["es", "--max-vram", "7", "--help", "--max-vram", "9"] = some 1 ∧
    ∃ r, parseArgs ["es", "--max-vram", "7", "--help", "--max-vram", "9"]
        (entryState settings100) = some r ∧
      (lastReached "--max-vram" ["es", "--max-vram", "7", "--help", "--max-vram", "9"] = none →
        r.2.settings.mIntMap = (entryState settings100).settings.mIntMap) ∧
      (∀ j, lastReached "--max-vram" ["es", "--max-vram", "7", "--help", "--max-vram", "9"]
          = some j →
        ∃ v, ["es", "--max-vram", "7", "--help", "--max-vram", "9"][j + 1]? = some v ∧
          r.2.settings.getInt "MaxVRAM" = some (atoi v) ∧
          (isDecimal v = true → decimalValue v ≤ 2147483647 →
            r.2.settings.getInt "MaxVRAM" = some (decimalValue v : Int)) ∧
          (∀ n, n ≠ "MaxVRAM" →
            r.2.settings.mIntMap n = (entryState settings100).settings.mIntMap n)) :=
  ⟨by unfold ReadsDefined; decide, by decide,
   parseArgs_maxVram ["es", "--max-vram", "7", "--help", "--max-vram", "9"]
     (entryState settings100) (by unfold ReadsDefined; decide)⟩

/-- C4: with every reached `--vsync` / `--max-vram` followed by an argument, `parseArgs`
returns, and it returns `false` if and only if the left-to-right scan (`--resolution`
consuming two arguments, `--vsync` one) reaches `--help` or `-h`, or reaches
`--resolution` with fewer than two arguments after it; otherwise it returns `true`. -/
theorem parseArgs_false_iff (argv : List String) (st : ArgsState) (hd : ReadsDefined argv) :
    ∃ r, parseArgs argv st = some r ∧
      (r.1 = false ↔
        ∃ j ∈ reached argv, argv[j]? = some "--help" ∨ argv[j]? = some "-h" ∨
          (argv[j]? = some "--resolution" ∧ argv.length - 1 - j < 2)) ∧
      (r.1 = true ↔
        ¬ ∃ j ∈ reached argv, argv[j]? = some "--help" ∨ argv[j]? = some "-h" ∨
          (argv[j]? = some "--resolution" ∧ argv.length - 1 - j < 2)) := by
  obtain ⟨r, hr, hiff⟩ :=
    parseArgsLoop_ret argv (argv.length + 1) 1 st (by omega) (by omega) hd
  have key : (r.1 = false ↔
      ∃ j ∈ reached argv, argv[j]? = some "--help" ∨ argv[j]? = some "-h" ∨
        (argv[j]? = some "--resolution" ∧ argv.length - 1 - j < 2)) := by
    rw [hiff]
    unfold reached
    constructor
    · rintro ⟨j, hj, hs⟩
      refine ⟨j, hj, ?_⟩
      unfold stopsAt at hs
      simp only [Bool.or_eq_true, Bool.and_eq_true, decide_eq_true_eq] at hs
      tauto
    · rintro ⟨j, hj, hs⟩
      refine ⟨j, hj, ?_⟩
      unfold stopsAt
      simp only [Bool.or_eq_true, Bool.and_eq_true, decide_eq_true_eq]
      tauto
  refine ⟨r, hr, key, ?_⟩
  rw [← key]
  cases r.1 <;> simp

/-- C4 at a command line with an unrecognised argument, a `--vsync` that consumes
`--help`, and a `--resolution` with one argument after it. -/
theorem parseArgs_false_iff_witness :
    ReadsDefined ["es", "--windowed", "--bogus", "--vsync", "--help", "--resolution", "640"] ∧
    ∃ r, parseArgs ["es", "--windowed", "--bogus", "--vsync", "--help", "--resolution", "640"]
        (entryState settings100) = some r ∧
      (r.1 = false ↔
        ∃ j ∈ reached ["es", "--windowed", "--bogus", "--vsync", "--help", "--resolution", "640"],
          ["es", "--windowed", "--bogus", "--vsync", "--help", "--resolution", "640"][j]?
              = some "--help" ∨
          ["es", "--windowed", "--bogus", "--vsync", "--help", "--resolution", "640"][j]?
              = some "-h" ∨
          (["es", "--windowed", "--bogus", "--vsync", "--help", "--resolution", "640"][j]?
              = some "--resolution" ∧
            ["es", "--windowed", "--bogus", "--vsync", "--help", "--resolution", "640"].length
              - 1 - j < 2)) ∧
      (r.1 = true ↔
        ¬ ∃ j ∈ reached ["es", "--windowed", "--bogus", "--vsync", "--help", "--resolution", "640"],
          ["es", "--windowed", "--bogus", "--vsync", "--help", "--resolution", "640"][j]?
              = some "--help" ∨
          ["es", "--windowed", "--bogus", "--vsync", "--help", "--resolution", "640"][j]?
              = some "-h" ∨
          (["es", "--windowed", "--bogus", "--vsync", "--help", "--resolution", "640"][j]?
              = some "--resolution" ∧
            ["es", "--windowed", "--bogus", "--vsync", "--help", "--resolution", "640"].length
              - 1 - j < 2)) :=
  ⟨by unfold ReadsDefined; decide,
   parseArgs_false_iff ["es", "--windowed", "--bogus", "--vsync", "--help", "--resolution", "640"]
     (entryState settings100) (by unfold ReadsDefined; decide)⟩

/-- C5 (as stated, refuted): `es --resolution -1 -1` returns `true`, the integer value
of each of the two arguments is -1, and `*width`, `*height` end as 4294967295. -/
theorem resolution_negative_counterexample :
    lastReached "--resolution" ["es", "--resolution", "-1", "-1"] = some 1 ∧
    atoi "-1" = -1 ∧
    (parseArgs ["es", "--resolution", "-1", "-1"] (entryState settings100)).map
      (fun r => (r.1, r.2.width, r.2.height)) = some (true, 4294967295, 4294967295) ∧
    ((4294967295 : Nat) : Int) ≠ atoi "-1" := by
  decide

/-- C5 (amended): when `parseArgs` returns `true`, `*width` and `*height` equal the
`atoi` values of the two arguments after the last reached `--resolution`, converted to
`unsigned int` (reduced modulo 2^32; the value itself when it is not negative), and
equal their values on entry when no `--resolution` was reached. -/
theorem parseArgs_resolution (argv : List String) (st st1 : ArgsState)
    (hret : parseArgs argv st = some (true, st1)) :
    (lastReached "--resolution" argv = none →
      st1.width = st.width ∧ st1.height = st.height) ∧
    (∀ j, lastReached "--resolution" argv = some j →
      ∃ a1 a2, argv[j + 1]? = some a1 ∧ argv[j + 2]? = some a2 ∧
        st1.width = toUnsigned (atoi a1) ∧ st1.height = toUnsigned (atoi a2) ∧
        (0 ≤ atoi a1 → (st1.width : Int) = atoi a1) ∧
        (0 ≤ atoi a2 → (st1.height : Int) = atoi a2)) := by
  obtain ⟨h1, h2⟩ := parseArgsLoop_size argv (argv.length + 1) 1 st st1 hret
  refine ⟨h1, ?_⟩
  intro j hj
  obtain ⟨a1, a2, e1, e2, hw, hh⟩ := h2 j hj
  have hrange : ∀ s : String, 0 ≤ atoi s → ((toUnsigned (atoi s) : Nat) : Int) = atoi s := by
    intro s hs
    have hlt : atoi s < 2147483648 := by
      unfold atoi toInt32
      omega
    unfold toUnsigned
    omega
  refine ⟨a1, a2, e1, e2, hw, hh, ?_, ?_⟩
  · intro h0; rw [hw]; exact hrange a1 h0
  · intro h0; rw [hh]; exact hrange a2 h0

/-- The amended C5 at a command line with two `--resolution` options. -/
theorem parseArgs_resolution_witness :
    parseArgs ["es", "--resolution", "640", "480", "--resolution", "800", "600"]
      (entryState settings100)
      = some (true, { entryState settings100 with width := 800, height := 600 }) ∧
    lastReached "--resolution"
      ["es", "--resolution", "640", "480", "--resolution", "800", "600"] = some 4 ∧
    ((lastReached "--resolution"
        ["es", "--resolution", "640", "480", "--resolution", "800", "600"] = none →
      (800 : Nat) = (entryState settings100).width ∧
      (600 : Nat) = (entryState settings100).height) ∧
    (∀ j, lastReached "--resolution"
        ["es", "--resolution", "640", "480", "--resolution", "800", "600"] = some j →
      ∃ a1 a2,
        ["es", "--resolution", "640", "480", "--resolution", "800", "600"][j + 1]? = some a1 ∧
        ["es", "--resolution", "640", "480", "--resolution", "800", "600"][j + 2]? = some a2 ∧
        (800 : Nat) = toUnsigned (atoi a1) ∧ (600 : Nat) = toUnsigned (atoi a2) ∧
        (0 ≤ atoi a1 → ((800 : Nat) : Int) = atoi a1) ∧
        (0 ≤ atoi a2 → ((600 : Nat) : Int) = atoi a2))) :=
  ⟨rfl, by decide, parseArgs_resolution
    ["es", "--resolution", "640", "480", "--resolution", "800", "600"]
    (entryState settings100)
    { entryState settings100 with width := 800, height := 600 } rfl⟩

/-! ## Frame time: the claim -/

/-- C6: for every tick value and every `lastTime`, with `curTime - lastTime` the `int`
the code computes (the subtraction wrapping modulo 2^32), the `deltaTime` handed to
`window.update` lies between 0 and 1000 inclusive: it equals that difference when the
difference lies in [0, 1000], and it is 1000 when the difference is greater than 1000 or
negative.  The computed difference is the mathematical one whenever that fits an `int`. -/
theorem frameDelta_capped (ticks : Nat) (lastTime : Int) :
    0 ≤ (frameDelta ticks lastTime).1 ∧ (frameDelta ticks lastTime).1 ≤ 1000 ∧
    (0 ≤ toInt32 (toInt32 ticks - lastTime) ∧ toInt32 (toInt32 ticks - lastTime) ≤ 1000 →
      (frameDelta ticks lastTime).1 = toInt32 (toInt32 ticks - lastTime)) ∧
    (1000 < toInt32 (toInt32 ticks - lastTime) ∨ toInt32 (toInt32 ticks - lastTime) < 0 →
      (frameDelta ticks lastTime).1 = 1000) ∧
    (-2147483648 ≤ toInt32 ticks - lastTime ∧ toInt32 ticks - lastTime ≤ 2147483647 →
      toInt32 (toInt32 ticks - lastTime) = toInt32 ticks - lastTime) := by
  unfold frameDelta
  simp only []
  generalize toInt32 (ticks : Int) = c
  refine ⟨?_, ?_, ?_, ?_, ?_⟩
  · split_ifs with h
    · decide
    · omega
  · split_ifs with h
    · decide
    · omega
  · intro h
    rw [if_neg (by omega)]
  · intro h
    rw [if_pos h]
  · intro h
    unfold toInt32
    omega

/-- C6 at the tick at which the `int` tick count passes 2^31, and at a frame of 16
ticks: the computed differences are 1 and 16, and so is `deltaTime`. -/
theorem frameDelta_capped_witness :
    (frameDelta 2147483648 2147483647).1 = 1 ∧
    (frameDelta 1016 1000).1 = 16 ∧
    (0 ≤ (frameDelta 1016 1000).1 ∧ (frameDelta 1016 1000).1 ≤ 1000 ∧
    (0 ≤ toInt32 (toInt32 (1016 : Nat) - 1000) ∧ toInt32 (toInt32 (1016 : Nat) - 1000) ≤ 1000 →
      (frameDelta 1016 1000).1 = toInt32 (toInt32 (1016 : Nat) - 1000)) ∧
    (1000 < toInt32 (toInt32 (1016 : Nat) - 1000) ∨ toInt32 (toInt32 (1016 : Nat) - 1000) < 0 →
      (frameDelta 1016 1000).1 = 1000) ∧
    (-2147483648 ≤ toInt32 (1016 : Nat) - 1000 ∧ toInt32 (1016 : Nat) - 1000 ≤ 2147483647 →
      toInt32 (toInt32 (1016 : Nat) - 1000) = toInt32 (1016 : Nat) - 1000)) :=
  ⟨by decide, by decide, frameDelta_capped 1016 1000⟩

/-! ## Texture data manager: eviction and the budget -/

/-- Eviction keeps the identities of the units, in order. -/
theorem evictLRU_ids (budget need : Nat) :
    ∀ (l : List TextureData) (rb : Nat),
      (evictLRU budget need l rb).1.map (fun u => u.id) = l.map (fun u => u.id) := by
  intro l
  induction l with
  | nil => intro rb; rfl
  | cons u us ih =>
    intro rb
    unfold evictLRU
    split_ifs
    · rfl
    · simp [ih]
    · simp [ih]

/-- Every unit after eviction is a unit from before, unchanged or with its GPU storage
released. -/
theorem evictLRU_mem (budget need : Nat) :
    ∀ (l : List TextureData) (rb : Nat) (v1 : TextureData),
      v1 ∈ (evictLRU budget need l rb).1 →
      ∃ v ∈ l, v1 = v ∨ v1 = { v with resident := false } := by
  intro l
  induction l with
  | nil => intro rb v1 h; simp [evictLRU] at h
  | cons u us ih =>
    intro rb v1 h
    unfold evictLRU at h
    split_ifs at h
    · exact ⟨v1, h, Or.inl rfl⟩
    · simp only [List.mem_cons] at h
      rcases h with h | h
      · exact ⟨u, List.mem_cons_self _ _, Or.inr h⟩
      · obtain ⟨v, hv, hv1⟩ := ih _ v1 h
        exact ⟨v, List.mem_cons_of_mem _ hv, hv1⟩
    · simp only [List.mem_cons] at h
      rcases h with h | h
      · exact ⟨u, List.mem_cons_self _ _, Or.inl h⟩
      · obtain ⟨v, hv, hv1⟩ := ih _ v1 h
        exact ⟨v, List.mem_cons_of_mem _ hv, hv1⟩

/-- Eviction stops with the unit fitting the budget, or with nothing left to evict. -/
theorem evictLRU_post (budget need : Nat) :
    ∀ (l : List TextureData) (rb : Nat),
      (evictLRU budget need l rb).2 + need ≤ budget ∨
      ∀ v ∈ (evictLRU budget need l rb).1, v.evictable = false := by
  intro l
  induction l with
  | nil => intro rb; right; intro v hv; simp [evictLRU] at hv
  | cons u us ih =>
    intro rb
    unfold evictLRU
    split_ifs with h1 h2
    · left; exact h1
    · rcases ih (rb - u.bytes) with h | h
      · left; exact h
      · right
        intro v hv
        simp only [List.mem_cons] at hv
        rcases hv with rfl | hv
        · simp [TextureData.evictable]
        · exact h v hv
    · rcases ih rb with h | h
      · left; exact h
      · right
        intro v hv
        simp only [List.mem_cons] at hv
        rcases hv with rfl | hv
        · simpa using h2
        · exact h v hv

/-- Resident sum of a list with one more unit in front. -/
theorem residentSum_cons (u : TextureData) (us : List TextureData) :
    residentSum (u :: us) = (if u.resident = true then u.bytes else 0) + residentSum us := by
  unfold residentSum
  by_cases h : u.resident = true
  · simp [List.filter_cons, h]
  · simp [List.filter_cons, h]

/-- Eviction keeps the running sum equal to the bytes of the resident units. -/
theorem evictLRU_sum (budget need : Nat) :
    ∀ (l : List TextureData) (rb S : Nat), rb = S + residentSum l →
      (evictLRU budget need l rb).2 = S + residentSum (evictLRU budget need l rb).1 := by
  intro l
  induction l with
  | nil => intro rb S h; simpa [evictLRU] using h
  | cons u us ih =>
    intro rb S h
    unfold evictLRU
    split_ifs with h1 h2
    · exact h
    · have hres : u.resident = true := by
        unfold TextureData.evictable at h2
        simp only [Bool.and_eq_true] at h2
        exact h2.1.1.1.1
      rw [residentSum_cons, if_pos hres] at h
      simp only []
      rw [residentSum_cons]
      simp only [Bool.false_eq_true, if_false, zero_add]
      exact ih (rb - u.bytes) S (by omega)
    · rw [residentSum_cons] at h
      simp only []
      rw [residentSum_cons]
      have := ih rb (S + if u.resident = true then u.bytes else 0) (by omega)
      omega

/-- Reversal does not change the resident sum. -/
theorem residentSum_reverse (l : List TextureData) :
    residentSum l.reverse = residentSum l := by
  unfold residentSum
  rw [List.filter_reverse, List.map_reverse, List.sum_reverse]

/-- Dropping units that are not resident does not change the resident sum. -/
theorem residentSum_filter (p : TextureData → Bool) :
    ∀ (l : List TextureData), (∀ v ∈ l, p v = false → v.resident = false) →
      residentSum (l.filter p) = residentSum l := by
  intro l
  induction l with
  | nil => intro _; rfl
  | cons u us ih =>
    intro h
    have hus : ∀ v ∈ us, p v = false → v.resident = false :=
      fun v hv => h v (List.mem_cons_of_mem _ hv)
    by_cases hp : p u = true
    · rw [List.filter_cons, if_pos hp, residentSum_cons, residentSum_cons, ih hus]
    · have hr : u.resident = false := h u (List.mem_cons_self _ _) (by simpa using hp)
      rw [List.filter_cons, if_neg hp, residentSum_cons, ih hus]
      simp [hr]

/-- The unit found for a key is in the table and carries that key. -/
theorem find_some (m : TextureDataManager) (key : TextureKeyType) (u : TextureData)
    (h : m.find key = some u) : u ∈ m.units ∧ u.key = key := by
  unfold TextureDataManager.find at h
  have h1 := List.mem_of_find?_eq_some h
  have h2 := List.find?_some h
  exact ⟨h1, by simpa using h2⟩

/-- With distinct identities, a unit of the table is determined by its identity. -/
theorem eq_of_id_eq (l : List TextureData) (hn : (l.map (fun u => u.id)).Nodup)
    (u v : TextureData) (hu : u ∈ l) (hv : v ∈ l) (h : u.id = v.id) : u = v :=
  List.inj_on_of_nodup_map hn hu hv h

/-- Right after `ensureResident` has made a pinned, not yet resident unit resident under
a non-zero budget, the total resident bytes do not exceed the budget unless no resident
unit is eligible for eviction; and the table stays consistent. -/
theorem ensureResident_fit (m : TextureDataManager) (key : TextureKeyType)
    (u : TextureData) (hwf : m.WF) (hb : m.budget ≠ 0) (hfind : m.find key = some u)
    (hres : u.resident = false)
    (hpin : 0 < u.refs ∨ u.forceLoad = true ∨ u.inMemory = true ∨ u.dynamic = false) :
    ((m.ensureResident key).totalResidentBytes ≤ (m.ensureResident key).budget ∨
      ∀ v ∈ (m.ensureResident key).units, v.resident = true → v.evictable = false) ∧
    (m.ensureResident key).WF := by
  obtain ⟨hnodup, hsum⟩ := hwf
  obtain ⟨hu, _⟩ := find_some m key u hfind
  unfold TextureDataManager.ensureResident
  rw [hfind]
  simp only [hres, Bool.false_eq_true, if_false, if_neg hb]
  unfold TextureDataManager.totalResidentBytes
  simp only []
  have hids := evictLRU_ids m.budget u.bytes m.units.reverse m.residentBytes
  have hpost := evictLRU_post m.budget u.bytes m.units.reverse m.residentBytes
  have hsum1 := evictLRU_sum m.budget u.bytes m.units.reverse m.residentBytes 0
    (by rw [residentSum_reverse]; omega)
  have hmem := evictLRU_mem m.budget u.bytes m.units.reverse m.residentBytes
  generalize evictLRU m.budget u.bytes m.units.reverse m.residentBytes = r
    at hids hpost hsum1 hmem
  have hu1 : ({ u with resident := true } : TextureData).evictable = false := by
    unfold TextureData.evictable
    rcases hpin with h | h | h | h
    · have : u.refs ≠ 0 := by omega
      simp [this]
    · simp [h]
    · simp [h]
    · simp [h]
  -- units sharing the identity of `u` are not resident after eviction
  have hsame : ∀ v ∈ r.1.reverse,
      (decide (v.id ≠ u.id)) = false → v.resident = false := by
    intro v hv hid
    simp only [ne_eq, decide_not, Bool.not_eq_false', decide_eq_true_eq] at hid
    obtain ⟨v0, hv0, hv1⟩ := hmem v (List.mem_reverse.mp hv)
    have hv0m : v0 ∈ m.units := List.mem_reverse.mp hv0
    rcases hv1 with rfl | rfl
    · have := eq_of_id_eq m.units hnodup v u hv0m hu hid
      rw [this]; exact hres
    · rfl
  refine ⟨?_, ?_, ?_⟩
  · rcases hpost with h | h
    · left; exact h
    · right
      intro v hv _
      simp only [List.mem_cons, List.mem_filter, List.mem_reverse] at hv
      rcases hv with rfl | ⟨hv, _⟩
      · exact hu1
      · exact h v hv
  · -- identities stay distinct
    simp only [List.map_cons, List.nodup_cons]
    constructor
    · intro hmemid
      obtain ⟨v, hv, hvid⟩ := List.mem_map.mp hmemid
      simp only [List.mem_filter, ne_eq, decide_not, Bool.not_eq_true', decide_eq_false_iff_not]
        at hv
      exact hv.2 hvid
    · have hn1 : (r.1.reverse.map (fun u => u.id)).Nodup := by
        rw [List.map_reverse, hids, ← List.map_reverse, List.reverse_reverse]
        exact hnodup
      exact (hn1.sublist (List.Sublist.map _ (List.filter_sublist _)))
  · -- the running sum is the sum over the resident units
    simp only []
    rw [residentSum_cons, residentSum_filter _ _ hsame, residentSum_reverse, hsum1]
    simp only [if_true]
    omega

/-! ## Texture data manager: identities of the units -/

/-- A table is a later stage of itself. -/
theorem managerExt_refl (m : TextureDataManager) : m.Ext m :=
  ⟨Nat.le_refl _, fun u1 h1 _ => ⟨u1, h1, rfl, rfl⟩⟩

/-- Later stages compose. -/
theorem managerExt_trans {m m1 m2 : TextureDataManager}
    (h1 : m.Ext m1) (h2 : m1.Ext m2) : m.Ext m2 := by
  refine ⟨Nat.le_trans h1.1 h2.1, ?_⟩
  intro u2 hu2 hlt
  obtain ⟨u1, hu1, hid, hkey⟩ := h2.2 u2 hu2 (by have := h1.1; omega)
  obtain ⟨u, hu, hid0, hkey0⟩ := h1.2 u1 hu1 (by omega)
  exact ⟨u, hu, by omega, hkey0.trans hkey⟩

/-- What `acquire` does to the table. -/
theorem acquire_spec (m : TextureDataManager) (key : TextureKeyType) (bytes : Nat)
    (fl dy : Bool) (hm : m.Inv) :
    (m.acquire key bytes fl dy).2.Inv ∧
    m.Ext (m.acquire key bytes fl dy).2 ∧
    (m.acquire key bytes fl dy).2.Backs (m.acquire key bytes fl dy).1.id key ∧
    ∀ i k, m.Backs i k → (m.acquire key bytes fl dy).2.Backs i k := by
  obtain ⟨hnodup, hlt⟩ := hm
  unfold TextureDataManager.acquire
  cases hfind : m.find key with
  | some u =>
    obtain ⟨hu, hkey⟩ := find_some m key u hfind
    simp only []
    have hid : ∀ v : TextureData,
        (if v.id = u.id then { u with refs := u.refs + 1 } else v).id = v.id := by
      intro v; split_ifs with h <;> simp [h]
    have hk : ∀ v ∈ m.units,
        (if v.id = u.id then { u with refs := u.refs + 1 } else v).key = v.key := by
      intro v hv
      split_ifs with h
      · rw [eq_of_id_eq m.units hnodup v u hv hu h]
      · rfl
    refine ⟨⟨?_, ?_⟩, ⟨Nat.le_refl _, ?_⟩, ?_, ?_⟩
    · rw [List.map_map]
      have : ((fun u => u.id) ∘ fun v => if v.id = u.id then { u with refs := u.refs + 1 } else v)
          = fun u => u.id := by
        funext v; exact hid v
      rw [this]; exact hnodup
    · intro v1 hv1
      obtain ⟨v, hv, rfl⟩ := List.mem_map.mp hv1
      rw [hid v]; exact hlt v hv
    · intro v1 hv1 _
      obtain ⟨v, hv, rfl⟩ := List.mem_map.mp hv1
      exact ⟨v, hv, (hid v).symm, (hk v hv).symm⟩
    · refine ⟨{ u with refs := u.refs + 1 }, ?_, rfl, hkey, Nat.succ_pos _⟩
      exact List.mem_map.mpr ⟨u, hu, by simp⟩
    · rintro i k ⟨v, hv, hvi, hvk, hvr⟩
      refine ⟨_, List.mem_map.mpr ⟨v, hv, rfl⟩, ?_, ?_, ?_⟩
      · rw [hid v]; exact hvi
      · rw [hk v hv]; exact hvk
      · split_ifs
        · exact Nat.succ_pos _
        · exact hvr
  | none =>
    simp only []
    refine ⟨⟨?_, ?_⟩, ⟨Nat.le_succ _, ?_⟩, ?_, ?_⟩
    · rw [List.map_append, List.nodup_append]
      refine ⟨hnodup, by simp, ?_⟩
      intro a ha hb
      obtain ⟨v, hv, rfl⟩ := List.mem_map.mp ha
      simp only [List.map_cons, List.map_nil, List.mem_singleton] at hb
      have := hlt v hv
      omega
    · intro v hv
      simp only [List.mem_append, List.mem_singleton] at hv
      rcases hv with hv | rfl
      · exact Nat.lt_succ_of_lt (hlt v hv)
      · exact Nat.lt_succ_self _
    · intro v1 hv1 hlt1
      simp only [List.mem_append, List.mem_singleton] at hv1
      rcases hv1 with hv1 | rfl
      · exact ⟨v1, hv1, rfl, rfl⟩
      · simp at hlt1
    · exact ⟨_, List.mem_append_right _ (List.mem_singleton_self _), rfl, rfl, Nat.one_pos⟩
    · rintro i k ⟨v, hv, hvi, hvk, hvr⟩
      exact ⟨v, List.mem_append_left _ hv, hvi, hvk, hvr⟩

/-- What `release` does to the table: units under other keys keep their references. -/
theorem release_spec (m : TextureDataManager) (key : TextureKeyType) (hm : m.Inv) :
    (m.release key).Inv ∧ m.Ext (m.release key) ∧
    ∀ i k, k ≠ key → m.Backs i k → (m.release key).Backs i k := by
  obtain ⟨hnodup, hlt⟩ := hm
  unfold TextureDataManager.release
  have hid : ∀ v : TextureData,
      (if v.key = key then { v with refs := v.refs - 1 } else v).id = v.id := by
    intro v; split_ifs <;> rfl
  have hk : ∀ v : TextureData,
      (if v.key = key then { v with refs := v.refs - 1 } else v).key = v.key := by
    intro v; split_ifs <;> rfl
  refine ⟨⟨?_, ?_⟩, ⟨Nat.le_refl _, ?_⟩, ?_⟩
  · simp only []
    rw [List.map_map]
    have : ((fun u : TextureData => u.id) ∘
        fun v : TextureData => if v.key = key then { v with refs := v.refs - 1 } else v)
        = fun u => u.id := by
      funext v; exact hid v
    rw [this]; exact hnodup
  · intro v1 hv1
    obtain ⟨v, hv, rfl⟩ := List.mem_map.mp hv1
    rw [hid v]; exact hlt v hv
  · intro v1 hv1 _
    obtain ⟨v, hv, rfl⟩ := List.mem_map.mp hv1
    exact ⟨v, hv, (hid v).symm, (hk v).symm⟩
  · rintro i k hne ⟨v, hv, hvi, hvk, hvr⟩
    refine ⟨_, List.mem_map.mpr ⟨v, hv, rfl⟩, ?_, ?_, ?_⟩
    · rw [hid v]; exact hvi
    · rw [hk v]; exact hvk
    · have : ¬ v.key = key := by rw [hvk]; exact hne
      rw [if_neg this]; exact hvr

/-- What `purge` does to the table: referenced units stay. -/
theorem purge_spec (m : TextureDataManager) (key : TextureKeyType) (hm : m.Inv) :
    (m.purge key).Inv ∧ m.Ext (m.purge key) ∧
    ∀ i k, m.Backs i k → (m.purge key).Backs i k := by
  obtain ⟨hnodup, hlt⟩ := hm
  unfold TextureDataManager.purge
  cases hfind : m.find key with
  | none => exact ⟨⟨hnodup, hlt⟩, managerExt_refl m, fun _ _ h => h⟩
  | some u =>
    obtain ⟨hu, _⟩ := find_some m key u hfind
    simp only []
    by_cases h0 : u.refs = 0
    · rw [if_pos h0]
      refine ⟨⟨?_, ?_⟩, ⟨Nat.le_refl _, ?_⟩, ?_⟩
      · exact hnodup.sublist (List.Sublist.map _ (List.filter_sublist _))
      · intro v hv
        exact hlt v (List.mem_of_mem_filter hv)
      · intro v1 hv1 _
        exact ⟨v1, List.mem_of_mem_filter hv1, rfl, rfl⟩
      · rintro i k ⟨v, hv, hvi, hvk, hvr⟩
        refine ⟨v, ?_, hvi, hvk, hvr⟩
        rw [List.mem_filter]
        refine ⟨hv, ?_⟩
        simp only [ne_eq, decide_not, Bool.not_eq_true', decide_eq_false_iff_not]
        intro hid
        have := eq_of_id_eq m.units hnodup v u hv hu hid
        rw [this] at hvr
        omega
    · rw [if_neg h0]
      exact ⟨⟨hnodup, hlt⟩, managerExt_refl m, fun _ _ h => h⟩

/-- Every unit from before eviction is still there, with its identity, key and
reference count. -/
theorem evictLRU_back (budget need : Nat) :
    ∀ (l : List TextureData) (rb : Nat) (v : TextureData), v ∈ l →
      ∃ v1 ∈ (evictLRU budget need l rb).1,
        v1.id = v.id ∧ v1.key = v.key ∧ v1.refs = v.refs := by
  intro l
  induction l with
  | nil => intro rb v h; simp at h
  | cons u us ih =>
    intro rb v h
    unfold evictLRU
    split_ifs
    · exact ⟨v, h, rfl, rfl, rfl⟩
    · rcases List.mem_cons.mp h with rfl | h
      · exact ⟨_, List.mem_cons_self _ _, rfl, rfl, rfl⟩
      · obtain ⟨v1, hv1, h1⟩ := ih (rb - u.bytes) v h
        exact ⟨v1, List.mem_cons_of_mem _ hv1, h1⟩
    · rcases List.mem_cons.mp h with rfl | h
      · exact ⟨_, List.mem_cons_self _ _, rfl, rfl, rfl⟩
      · obtain ⟨v1, hv1, h1⟩ := ih rb v h
        exact ⟨v1, List.mem_cons_of_mem _ hv1, h1⟩

/-- Forward form of `evictLRU_mem` on identity, key and reference count. -/
theorem evictLRU_core (budget need : Nat) (l : List TextureData) (rb : Nat)
    (v1 : TextureData) (h : v1 ∈ (evictLRU budget need l rb).1) :
    ∃ v ∈ l, v1.id = v.id ∧ v1.key = v.key ∧ v1.refs = v.refs := by
  obtain ⟨v, hv, hv1⟩ := evictLRU_mem budget need l rb v1 h
  rcases hv1 with rfl | rfl
  · exact ⟨v1, hv, rfl, rfl, rfl⟩
  · exact ⟨v, hv, rfl, rfl, rfl⟩

/-- Bringing a unit to the front of a table whose other units were only touched in
their residency keeps the structure of the table. -/
theorem front_spec (m : TextureDataManager) (hm : m.Inv) (u u1 : TextureData)
    (l : List TextureData) (hu : u ∈ m.units)
    (hu1 : u1.id = u.id ∧ u1.key = u.key ∧ u1.refs = u.refs)
    (hids : l.map (fun v => v.id) = m.units.map (fun v => v.id))
    (hfwd : ∀ v1 ∈ l, ∃ v ∈ m.units, v1.id = v.id ∧ v1.key = v.key ∧ v1.refs = v.refs)
    (hback : ∀ v ∈ m.units, ∃ v1 ∈ l, v1.id = v.id ∧ v1.key = v.key ∧ v1.refs = v.refs)
    (rb : Nat) :
    ({ m with units := u1 :: l.filter (fun v => decide (v.id ≠ u.id)),
              residentBytes := rb } : TextureDataManager).Inv ∧
    m.Ext { m with units := u1 :: l.filter (fun v => decide (v.id ≠ u.id)),
                   residentBytes := rb } ∧
    ∀ i k, m.Backs i k →
      ({ m with units := u1 :: l.filter (fun v => decide (v.id ≠ u.id)),
                residentBytes := rb } : TextureDataManager).Backs i k := by
  obtain ⟨hnodup, hlt⟩ := hm
  refine ⟨⟨?_, ?_⟩, ⟨Nat.le_refl _, ?_⟩, ?_⟩
  · simp only [List.map_cons, List.nodup_cons]
    constructor
    · intro hmemid
      obtain ⟨v, hv, hvid⟩ := List.mem_map.mp hmemid
      simp only [List.mem_filter, ne_eq, decide_not, Bool.not_eq_true', decide_eq_false_iff_not]
        at hv
      exact hv.2 (hvid.trans hu1.1)
    · have hn1 : (l.map (fun v => v.id)).Nodup := by rw [hids]; exact hnodup
      exact hn1.sublist (List.Sublist.map _ (List.filter_sublist _))
  · intro v hv
    simp only [List.mem_cons] at hv
    rcases hv with rfl | hv
    · show v.id < m.nextId
      rw [hu1.1]; exact hlt u hu
    · obtain ⟨v0, hv0, hid, _⟩ := hfwd v (List.mem_of_mem_filter hv)
      show v.id < m.nextId
      rw [hid]; exact hlt v0 hv0
  · intro v hv _
    simp only [List.mem_cons] at hv
    rcases hv with rfl | hv
    · exact ⟨u, hu, hu1.1.symm, hu1.2.1.symm⟩
    · obtain ⟨v0, hv0, hid, hkey, _⟩ := hfwd v (List.mem_of_mem_filter hv)
      exact ⟨v0, hv0, hid.symm, hkey.symm⟩
  · rintro i k ⟨v, hv, hvi, hvk, hvr⟩
    by_cases hid : v.id = u.id
    · have := eq_of_id_eq m.units hnodup v u hv hu hid
      subst this
      exact ⟨u1, List.mem_cons_self _ _, hu1.1.trans hvi, hu1.2.1.trans hvk,
        by rw [hu1.2.2]; exact hvr⟩
    · obtain ⟨v1, hv1, h1id, h1key, h1refs⟩ := hback v hv
      refine ⟨v1, ?_, h1id.trans hvi, h1key.trans hvk, by rw [h1refs]; exact hvr⟩
      apply List.mem_cons_of_mem
      rw [List.mem_filter]
      refine ⟨hv1, ?_⟩
      simp only [ne_eq, decide_not, Bool.not_eq_true', decide_eq_false_iff_not]
      rw [h1id]; exact hid

/-- What `ensureResident` does to the table: residency and order change, identities,
keys and reference counts do not. -/
theorem ensureResident_spec (m : TextureDataManager) (key : TextureKeyType) (hm : m.Inv) :
    (m.ensureResident key).Inv ∧ m.Ext (m.ensureResident key) ∧
    ∀ i k, m.Backs i k → (m.ensureResident key).Backs i k := by
  unfold TextureDataManager.ensureResident
  cases hfind : m.find key with
  | none => exact ⟨hm, managerExt_refl m, fun _ _ h => h⟩
  | some u =>
    obtain ⟨hu, _⟩ := find_some m key u hfind
    simp only []
    by_cases hres : u.resident = true
    · rw [if_pos hres]
      exact front_spec m hm u u m.units hu ⟨rfl, rfl, rfl⟩ rfl
        (fun v1 h1 => ⟨v1, h1, rfl, rfl, rfl⟩) (fun v h => ⟨v, h, rfl, rfl, rfl⟩)
        m.residentBytes
    · rw [if_neg hres]
      by_cases hb : m.budget = 0
      · rw [if_pos hb]
        simp only [List.reverse_reverse]
        exact front_spec m hm u { u with resident := true } m.units hu ⟨rfl, rfl, rfl⟩ rfl
          (fun v1 h1 => ⟨v1, h1, rfl, rfl, rfl⟩) (fun v h => ⟨v, h, rfl, rfl, rfl⟩) _
      · rw [if_neg hb]
        refine front_spec m hm u { u with resident := true } _ hu ⟨rfl, rfl, rfl⟩ ?_ ?_ ?_ _
        · rw [List.map_reverse, evictLRU_ids, List.map_reverse, List.reverse_reverse]
        · intro v1 h1
          obtain ⟨v, hv, h⟩ := evictLRU_core _ _ _ _ v1 (List.mem_reverse.mp h1)
          exact ⟨v, List.mem_reverse.mp hv, h⟩
        · intro v hv
          obtain ⟨v1, hv1, h⟩ :=
            evictLRU_back m.budget u.bytes m.units.reverse m.residentBytes v
              (List.mem_reverse.mpr hv)
          exact ⟨v1, List.mem_reverse.mpr hv1, h⟩

/-! ## Texture handles: the dedup map -/

/-- A search finds the one element that satisfies the test. -/
theorem find?_eq_some_of_unique {α : Type} (p : α → Bool) (l : List α) (x : α)
    (hx : x ∈ l) (hp : p x = true) (huniq : ∀ y ∈ l, p y = true → y = x) :
    l.find? p = some x := by
  cases h : l.find? p with
  | none =>
    have := List.find?_eq_none.mp h x hx
    simp [hp] at this
  | some y =>
    rw [huniq y (List.mem_of_find?_eq_some h) (List.find?_some h)]

/-- A state is a later stage of itself. -/
theorem worldExt_refl (w : World) : w.Ext w :=
  ⟨Nat.le_refl _, fun _ h _ => h, managerExt_refl _⟩

/-- Later stages of the state compose. -/
theorem worldExt_trans {w w1 w2 : World} (h1 : w.Ext w1) (h2 : w1.Ext w2) : w.Ext w2 :=
  ⟨Nat.le_trans h1.next_le h2.next_le,
   fun g hg hlt => h1.old g (h2.old g hg (Nat.lt_of_lt_of_le hlt h1.next_le)) hlt,
   managerExt_trans h1.manager h2.manager⟩

/-- The start-up state satisfies the invariant. -/
theorem init_inv (budget : Nat) : (World.init budget).Inv := by
  constructor <;> simp [World.init, TextureDataManager.Inv]

/-- A live handle is what the dedup map yields for its key. -/
theorem lookup_of_mem (w : World) (hw : w.Inv) (h : TextureResource)
    (hh : h ∈ w.sAllTextures) : w.lookup h.key = some h := by
  unfold World.lookup
  have he : w.sTextureMap.find? (fun e => decide (e.1 = h.key)) = some (h.key, h.id) := by
    apply find?_eq_some_of_unique _ _ _ (hw.registered h hh) (by simp)
    intro y hy hpy
    exact hw.map_fun y hy _ (hw.registered h hh) (by simpa using hpy)
  rw [he]
  simp only []
  apply find?_eq_some_of_unique _ _ _ hh (by simp)
  intro g hg hpg
  exact hw.id_inj g hg h hh (by simpa using hpg)

/-- What the dedup map yields is a live handle registered under the key asked for. -/
theorem lookup_some (w : World) (hw : w.Inv) (key : TextureKeyType) (h : TextureResource)
    (hl : w.lookup key = some h) : h ∈ w.sAllTextures ∧ h.key = key := by
  unfold World.lookup at hl
  cases he : w.sTextureMap.find? (fun e => decide (e.1 = key)) with
  | none => rw [he] at hl; simp at hl
  | some e =>
    rw [he] at hl
    simp only [] at hl
    have hmem := List.mem_of_find?_eq_some hl
    have hid : h.id = e.2 := by simpa using List.find?_some hl
    have hek : e.1 = key := by simpa using List.find?_some he
    exact ⟨hmem, (hw.entry_key e (List.mem_of_find?_eq_some he) h hmem hid).trans hek⟩

/-- What `get` does: the handle returned is alive and carries the key asked for, and the
invariant carries over. -/
theorem get_spec (w : World) (hw : w.Inv) (p : String) (t fl dy : Bool) (b : Nat) :
    (TextureResource.get w p t fl dy b).2.Inv ∧
    w.Ext (TextureResource.get w p t fl dy b).2 ∧
    (TextureResource.get w p t fl dy b).1 ∈ (TextureResource.get w p t fl dy b).2.sAllTextures ∧
    (TextureResource.get w p t fl dy b).1.key = { path := p, tile := t } := by
  unfold TextureResource.get
  simp only []
  cases hl : w.lookup { path := p, tile := t } with
  | some h =>
    obtain ⟨hmem, hkey⟩ := lookup_some w hw _ h hl
    exact ⟨hw, worldExt_refl w, hmem, hkey⟩
  | none =>
    simp only []
    obtain ⟨hmInv, hmExt, hmNew, hmOld⟩ :=
      acquire_spec w.sTextureDataManager { path := p, tile := t } b fl dy hw.manager
    have hfresh : ∀ g ∈ w.sAllTextures, g.key ≠ { path := p, tile := t } := by
      intro g hg hk
      have := lookup_of_mem w hw g hg
      rw [hk, hl] at this
      exact absurd this (by simp)
    refine ⟨?_, ?_, List.mem_cons_self _ _, trivial⟩
    · constructor
      · intro h hh
        rcases List.mem_cons.mp hh with rfl | hh
        · exact Nat.lt_succ_self _
        · exact Nat.lt_succ_of_lt (hw.id_lt h hh)
      · intro h hh g hg hid
        rcases List.mem_cons.mp hh with rfl | hh
        · rcases List.mem_cons.mp hg with rfl | hg
          · rfl
          · have := hw.id_lt g hg
            simp only [] at hid
            omega
        · rcases List.mem_cons.mp hg with rfl | hg
          · have := hw.id_lt h hh
            simp only [] at hid
            omega
          · exact hw.id_inj h hh g hg hid
      · intro h hh
        rcases List.mem_cons.mp hh with rfl | hh
        · exact List.mem_cons_self _ _
        · apply List.mem_cons_of_mem
          rw [List.mem_filter]
          exact ⟨hw.registered h hh, by simpa using hfresh h hh⟩
      · intro e he f hf hef
        rcases List.mem_cons.mp he with rfl | he
        · rcases List.mem_cons.mp hf with rfl | hf
          · rfl
          · have := (List.mem_filter.mp hf).2
            simp only [ne_eq, decide_not, Bool.not_eq_true', decide_eq_false_iff_not] at this
            exact absurd hef.symm this
        · rcases List.mem_cons.mp hf with rfl | hf
          · have := (List.mem_filter.mp he).2
            simp only [ne_eq, decide_not, Bool.not_eq_true', decide_eq_false_iff_not] at this
            exact absurd hef this
          · exact hw.map_fun e (List.mem_of_mem_filter he) f (List.mem_of_mem_filter hf) hef
      · intro e he
        rcases List.mem_cons.mp he with rfl | he
        · exact Nat.lt_succ_self _
        · exact Nat.lt_succ_of_lt (hw.map_lt e (List.mem_of_mem_filter he))
      · intro e he g hg hid
        rcases List.mem_cons.mp he with rfl | he
        · rcases List.mem_cons.mp hg with rfl | hg
          · rfl
          · have := hw.id_lt g hg
            simp only [] at hid
            omega
        · rcases List.mem_cons.mp hg with rfl | hg
          · have := hw.map_lt e (List.mem_of_mem_filter he)
            simp only [] at hid
            omega
          · exact hw.entry_key e (List.mem_of_mem_filter he) g hg hid
      · exact hmInv
      · intro h hh
        rcases List.mem_cons.mp hh with rfl | hh
        · exact hmNew
        · exact hmOld _ _ (hw.backed h hh)
    · refine ⟨Nat.le_succ _, ?_, hmExt⟩
      intro g hg hlt
      rcases List.mem_cons.mp hg with rfl | hg
      · simp at hlt
      · exact hg

/-- What the destruction of a handle does to the invariant. -/
theorem destroy_spec (w : World) (hw : w.Inv) (hid : Nat) :
    (w.destroy hid).Inv ∧ w.Ext (w.destroy hid) := by
  unfold World.destroy
  cases hf : w.sAllTextures.find? (fun h => decide (h.id = hid)) with
  | none => exact ⟨hw, worldExt_refl w⟩
  | some h =>
    simp only []
    have hh : h ∈ w.sAllTextures := List.mem_of_find?_eq_some hf
    have hhid : h.id = hid := by simpa using List.find?_some hf
    obtain ⟨hmInv, hmExt, hmOld⟩ := release_spec w.sTextureDataManager h.key hw.manager
    have hne : ∀ g : TextureResource, g ∈ w.sAllTextures.filter (fun g => decide (g.id ≠ hid)) →
        g ∈ w.sAllTextures ∧ g.id ≠ hid := by
      intro g hg
      have := List.mem_filter.mp hg
      exact ⟨this.1, by simpa using this.2⟩
    refine ⟨?_, ?_⟩
    · constructor
      · intro g hg
        exact hw.id_lt g (hne g hg).1
      · intro g hg g1 hg1 hid1
        exact hw.id_inj g (hne g hg).1 g1 (hne g1 hg1).1 hid1
      · intro g hg
        rw [List.mem_filter]
        exact ⟨hw.registered g (hne g hg).1, by simpa using (hne g hg).2⟩
      · intro e he f hf1 hef
        exact hw.map_fun e (List.mem_of_mem_filter he) f (List.mem_of_mem_filter hf1) hef
      · intro e he
        exact hw.map_lt e (List.mem_of_mem_filter he)
      · intro e he g hg hid1
        exact hw.entry_key e (List.mem_of_mem_filter he) g (hne g hg).1 hid1
      · exact hmInv
      · intro g hg
        apply hmOld _ _ _ (hw.backed g (hne g hg).1)
        intro hk
        have := hw.map_fun _ (hw.registered g (hne g hg).1) _ (hw.registered h hh) hk
        simp only [Prod.mk.injEq] at this
        exact (hne g hg).2 (this.2.trans hhid)
    · exact ⟨Nat.le_refl _, fun g hg _ => (hne g hg).1, hmExt⟩

/-- A change of the manager that keeps its structure keeps the invariant. -/
theorem manager_update (w : World) (hw : w.Inv) (m1 : TextureDataManager)
    (h : m1.Inv ∧ w.sTextureDataManager.Ext m1 ∧
      ∀ i k, w.sTextureDataManager.Backs i k → m1.Backs i k) :
    ({ w with sTextureDataManager := m1 } : World).Inv ∧
    w.Ext { w with sTextureDataManager := m1 } :=
  ⟨⟨hw.id_lt, hw.id_inj, hw.registered, hw.map_fun, hw.map_lt, hw.entry_key, h.1,
     fun g hg => h.2.2 _ _ (hw.backed g hg)⟩,
   ⟨Nat.le_refl _, fun _ hg _ => hg, h.2.1⟩⟩

/-- Every operation keeps the invariant and leads to a later stage. -/
theorem step_spec (w : World) (hw : w.Inv) (op : Op) :
    (w.step op).Inv ∧ w.Ext (w.step op) := by
  cases op with
  | get p t fl dy b =>
    have := get_spec w hw p t fl dy b
    exact ⟨this.1, this.2.1⟩
  | destroy hid => exact destroy_spec w hw hid
  | bind hid =>
    show (w.bind hid).Inv ∧ w.Ext (w.bind hid)
    unfold World.bind
    cases w.sAllTextures.find? (fun h => decide (h.id = hid)) with
    | none => exact ⟨hw, worldExt_refl w⟩
    | some h => exact manager_update w hw _ (ensureResident_spec _ h.key hw.manager)
  | purge key => exact manager_update w hw _ (purge_spec _ key hw.manager)

/-- Every sequence of operations keeps the invariant and leads to a later stage. -/
theorem run_spec (ops : List Op) :
    ∀ (w : World), w.Inv → (w.run ops).Inv ∧ w.Ext (w.run ops) := by
  induction ops with
  | nil => intro w hw; exact ⟨hw, worldExt_refl w⟩
  | cons op ops ih =>
    intro w hw
    obtain ⟨h1, h2⟩ := step_spec w hw op
    obtain ⟨h3, h4⟩ := ih (w.step op) h1
    exact ⟨h3, worldExt_trans h2 h4⟩

/-- C2: in any state reached from start-up, let a call `get(p, t)` return the handle
`h1`, and let any operations follow.  A second call `get(p, t)` made while `h1` is still
alive returns a handle backed by the same texture data unit (it is the same handle); and
a call whose key differs in path or in tiling flag returns a different handle, backed by
a different unit. -/
theorem get_dedup (budget : Nat) (ops1 ops2 : List Op) (p : String) (t fl dy : Bool) (b : Nat)
    (h1 : TextureResource) (w1 w2 : World)
    (hget : TextureResource.get ((World.init budget).run ops1) p t fl dy b = (h1, w1))
    (hrun : w1.run ops2 = w2) :
    (w2.alive h1.id → ∀ (fl2 dy2 : Bool) (b2 : Nat),
      (TextureResource.get w2 p t fl2 dy2 b2).1.unit = h1.unit ∧
      (TextureResource.get w2 p t fl2 dy2 b2).1 = h1) ∧
    (∀ (q : String) (t2 fl2 dy2 : Bool) (b2 : Nat), q ≠ p ∨ t2 ≠ t →
      (TextureResource.get w2 q t2 fl2 dy2 b2).1.id ≠ h1.id ∧
      (TextureResource.get w2 q t2 fl2 dy2 b2).1.unit ≠ h1.unit) := by
  have hw0 := (run_spec ops1 (World.init budget) (init_inv budget)).1
  have hg := get_spec _ hw0 p t fl dy b
  rw [hget] at hg
  obtain ⟨hw1, _, hmem1, hkey1⟩ := hg
  simp only [] at hw1 hmem1 hkey1
  obtain ⟨hw2, hext⟩ := run_spec ops2 w1 hw1
  rw [hrun] at hw2 hext
  have hlt1 : h1.id < w1.nextHandle := hw1.id_lt h1 hmem1
  constructor
  · rintro ⟨g, hg, hgid⟩ fl2 dy2 b2
    have hg1 : g ∈ w1.sAllTextures := hext.old g hg (by omega)
    have hgeq : g = h1 := hw1.id_inj g hg1 h1 hmem1 hgid
    subst hgeq
    have hl := lookup_of_mem w2 hw2 g hg
    rw [hkey1] at hl
    have : (TextureResource.get w2 p t fl2 dy2 b2).1 = g := by
      unfold TextureResource.get
      simp only [hl]
    exact ⟨by rw [this], this⟩
  · intro q t2 fl2 dy2 b2 hne
    obtain ⟨hw3, hext3, hmem3, hkey3⟩ := get_spec w2 hw2 q t2 fl2 dy2 b2
    have hext13 := worldExt_trans hext hext3
    have hkne : (TextureResource.get w2 q t2 fl2 dy2 b2).1.key ≠ h1.key := by
      rw [hkey3, hkey1]
      intro h
      simp only [TextureKeyType.mk.injEq] at h
      rcases hne with hne | hne
      · exact hne h.1
      · exact hne h.2
    constructor
    · intro hid
      have hold := hext13.old _ hmem3 (by omega)
      have := hw1.id_inj _ hold h1 hmem1 hid
      exact hkne (by rw [this])
    · intro hunit
      obtain ⟨u3, hu3, hu3id, hu3key, _⟩ := hw3.backed _ hmem3
      obtain ⟨u1, hu1, hu1id, hu1key, _⟩ := hw1.backed h1 hmem1
      have hu1lt := hw1.manager.2 u1 hu1
      obtain ⟨u, hu, huid, hukey⟩ := hext13.manager.2 u3 hu3 (by omega)
      have hueq : u = u1 :=
        eq_of_id_eq _ hw1.manager.1 u u1 hu hu1 (by omega)
      apply hkne
      rw [← hu3key, ← hukey, hueq, hu1key]

/-- C2 at states reached from start-up, the handle of the first call alive at the
second. -/
theorem get_dedup_witness :
    TextureResource.get
      ((World.init 10).run [.get "a.png" false false true 6, .bind 0, .destroy 0])
      "b.png" true false true 6
      = ({ id := 1, key := ⟨"b.png", true⟩, unit := 1, mForceLoad := false },
         (World.init 10).run
           [.get "a.png" false false true 6, .bind 0, .destroy 0,
            .get "b.png" true false true 6]) ∧
    ((World.init 10).run
        [.get "a.png" false false true 6, .bind 0, .destroy 0,
         .get "b.png" true false true 6]).run
      [.get "a.png" false false true 6, .bind 1, .purge ⟨"c.png", false⟩]
      = (World.init 10).run
        [.get "a.png" false false true 6, .bind 0, .destroy 0,
         .get "b.png" true false true 6,
         .get "a.png" false false true 6, .bind 1, .purge ⟨"c.png", false⟩] ∧
    ((World.init 10).run
        [.get "a.png" false false true 6, .bind 0, .destroy 0,
         .get "b.png" true false true 6,
         .get "a.png" false false true 6, .bind 1, .purge ⟨"c.png", false⟩]).alive 1 ∧
    ((((World.init 10).run
        [.get "a.png" false false true 6, .bind 0, .destroy 0,
         .get "b.png" true false true 6,
         .get "a.png" false false true 6, .bind 1, .purge ⟨"c.png", false⟩]).alive 1 →
      ∀ (fl2 dy2 : Bool) (b2 : Nat),
        (TextureResource.get ((World.init 10).run
          [.get "a.png" false false true 6, .bind 0, .destroy 0,
           .get "b.png" true false true 6,
           .get "a.png" false false true 6, .bind 1, .purge ⟨"c.png", false⟩])
          "b.png" true fl2 dy2 b2).1.unit = 1 ∧
        (TextureResource.get ((World.init 10).run
          [.get "a.png" false false true 6, .bind 0, .destroy 0,
           .get "b.png" true false true 6,
           .get "a.png" false false true 6, .bind 1, .purge ⟨"c.png", false⟩])
          "b.png" true fl2 dy2 b2).1
          = { id := 1, key := ⟨"b.png", true⟩, unit := 1, mForceLoad := false }) ∧
    (∀ (q : String) (t2 fl2 dy2 : Bool) (b2 : Nat), q ≠ "b.png" ∨ t2 ≠ true →
      (TextureResource.get ((World.init 10).run
          [.get "a.png" false false true 6, .bind 0, .destroy 0,
           .get "b.png" true false true 6,
           .get "a.png" false false true 6, .bind 1, .purge ⟨"c.png", false⟩])
          q t2 fl2 dy2 b2).1.id ≠ 1 ∧
      (TextureResource.get ((World.init 10).run
          [.get "a.png" false false true 6, .bind 0, .destroy 0,
           .get "b.png" true false true 6,
           .get "a.png" false false true 6, .bind 1, .purge ⟨"c.png", false⟩])
          q t2 fl2 dy2 b2).1.unit ≠ 1)) :=
  ⟨by decide, by decide, by unfold World.alive; decide,
   get_dedup 10 [.get "a.png" false false true 6, .bind 0, .destroy 0]
     [.get "a.png" false false true 6, .bind 1, .purge ⟨"c.png", false⟩]
     "b.png" true false true 6
     { id := 1, key := ⟨"b.png", true⟩, unit := 1, mForceLoad := false }
     ((World.init 10).run
        [.get "a.png" false false true 6, .bind 0, .destroy 0,
         .get "b.png" true false true 6])
     ((World.init 10).run
        [.get "a.png" false false true 6, .bind 0, .destroy 0,
         .get "b.png" true false true 6,
         .get "a.png" false false true 6, .bind 1, .purge ⟨"c.png", false⟩])
     (by decide) (by decide)⟩

/-! ## Texture data manager: the running sum in every reachable state -/

/-- A change of the units that keeps residency and size keeps the resident sum. -/
theorem residentSum_map (f : TextureData → TextureData) :
    ∀ (l : List TextureData),
      (∀ v ∈ l, (f v).resident = v.resident ∧ (f v).bytes = v.bytes) →
      residentSum (l.map f) = residentSum l := by
  intro l
  induction l with
  | nil => intro _; rfl
  | cons v vs ih =>
    intro h
    obtain ⟨h1, h2⟩ := h v (List.mem_cons_self _ _)
    rw [List.map_cons, residentSum_cons, residentSum_cons, h1, h2,
      ih (fun x hx => h x (List.mem_cons_of_mem _ hx))]

/-- Taking one unit out of the table takes its bytes, if it is resident, out of the
resident sum. -/
theorem residentSum_filter_id (u : TextureData) :
    ∀ (l : List TextureData), (l.map (fun v => v.id)).Nodup → u ∈ l →
      residentSum (l.filter (fun v => decide (v.id ≠ u.id)))
        + (if u.resident = true then u.bytes else 0) = residentSum l := by
  intro l
  induction l with
  | nil => intro _ h; simp at h
  | cons v vs ih =>
    intro hn hu
    have hn' := hn
    simp only [List.map_cons, List.nodup_cons] at hn'
    obtain ⟨hv, hvs⟩ := hn'
    by_cases hid : v.id = u.id
    · have hvu : v = u := eq_of_id_eq (v :: vs) hn v u (List.mem_cons_self _ _) hu hid
      subst hvu
      have hall : ∀ x ∈ vs, (decide (x.id ≠ v.id)) = false → x.resident = false := by
        intro x hx hdec
        simp only [ne_eq, decide_not, Bool.not_eq_false', decide_eq_true_eq] at hdec
        exact absurd (List.mem_map.mpr ⟨x, hx, hdec⟩) hv
      rw [List.filter_cons]
      simp only [ne_eq, not_true_eq_false, decide_False, Bool.false_eq_true, if_false]
      have := residentSum_filter (fun x => decide (x.id ≠ v.id)) vs hall
      simp only [ne_eq] at this
      rw [this, residentSum_cons]
      omega
    · have hu' : u ∈ vs := by
        rcases List.mem_cons.mp hu with rfl | h
        · exact absurd rfl hid
        · exact h
      rw [List.filter_cons]
      simp only [ne_eq, hid, not_false_eq_true, decide_True, if_true]
      rw [residentSum_cons, residentSum_cons]
      have := ih hvs hu'
      simp only [ne_eq] at this
      omega

/-- The operation `acquire` keeps the running sum consistent and the budget as it is. -/
theorem acquire_sum (m : TextureDataManager) (key : TextureKeyType) (bytes : Nat)
    (fl dy : Bool) (hn : (m.units.map (fun u => u.id)).Nodup)
    (hs : m.residentBytes = residentSum m.units) :
    (m.acquire key bytes fl dy).2.residentBytes = residentSum (m.acquire key bytes fl dy).2.units ∧
    (m.acquire key bytes fl dy).2.budget = m.budget := by
  unfold TextureDataManager.acquire
  cases hfind : m.find key with
  | some u =>
    obtain ⟨hu, _⟩ := find_some m key u hfind
    simp only [and_true]
    rw [hs]
    symm
    apply residentSum_map
    intro v hv
    split_ifs with h
    · rw [eq_of_id_eq m.units hn v u hv hu h]
      exact ⟨rfl, rfl⟩
    · exact ⟨rfl, rfl⟩
  | none =>
    simp only [and_true]
    rw [hs]
    unfold residentSum
    simp [List.filter_append]

/-- The operation `release` keeps the running sum consistent and the budget as it is. -/
theorem release_sum (m : TextureDataManager) (key : TextureKeyType)
    (hs : m.residentBytes = residentSum m.units) :
    (m.release key).residentBytes = residentSum (m.release key).units ∧
    (m.release key).budget = m.budget := by
  unfold TextureDataManager.release
  simp only [and_true]
  rw [hs]
  symm
  apply residentSum_map
  intro v _
  split_ifs <;> exact ⟨rfl, rfl⟩

/-- The operation `purge` keeps the running sum consistent and the budget as it is. -/
theorem purge_sum (m : TextureDataManager) (key : TextureKeyType)
    (hn : (m.units.map (fun u => u.id)).Nodup)
    (hs : m.residentBytes = residentSum m.units) :
    (m.purge key).residentBytes = residentSum (m.purge key).units ∧
    (m.purge key).budget = m.budget := by
  unfold TextureDataManager.purge
  cases hfind : m.find key with
  | none => exact ⟨hs, rfl⟩
  | some u =>
    obtain ⟨hu, _⟩ := find_some m key u hfind
    simp only []
    by_cases h0 : u.refs = 0
    · rw [if_pos h0]
      simp only [and_true]
      have := residentSum_filter_id u m.units hn hu
      rw [hs]
      by_cases hr : u.resident = true
      · rw [if_pos hr] at this ⊢
        omega
      · rw [if_neg hr] at this ⊢
        omega
    · rw [if_neg h0]
      exact ⟨hs, rfl⟩

/-- The operation `ensureResident` keeps the running sum consistent and the budget as
it is. -/
theorem ensureResident_sum (m : TextureDataManager) (key : TextureKeyType)
    (hn : (m.units.map (fun u => u.id)).Nodup)
    (hs : m.residentBytes = residentSum m.units) :
    (m.ensureResident key).residentBytes = residentSum (m.ensureResident key).units ∧
    (m.ensureResident key).budget = m.budget := by
  unfold TextureDataManager.ensureResident
  cases hfind : m.find key with
  | none => exact ⟨hs, rfl⟩
  | some u =>
    obtain ⟨hu, _⟩ := find_some m key u hfind
    simp only []
    by_cases hres : u.resident = true
    · rw [if_pos hres]
      simp only [and_true]
      have := residentSum_filter_id u m.units hn hu
      rw [residentSum_cons, hs]
      simp only [ne_eq] at this
      simp only [ne_eq]
      omega
    · rw [if_neg hres]
      simp only [and_true]
      rw [residentSum_cons]
      simp only [if_true]
      have hres' : u.resident = false := by simpa using hres
      have hsame : ∀ (l : List TextureData),
          (∀ v1 ∈ l, ∃ v ∈ m.units, v1 = v ∨ v1 = { v with resident := false }) →
          ∀ v ∈ l, (decide (v.id ≠ u.id)) = false → v.resident = false := by
        intro l hl v hv hid
        simp only [ne_eq, decide_not, Bool.not_eq_false', decide_eq_true_eq] at hid
        obtain ⟨v0, hv0, hv1⟩ := hl v hv
        rcases hv1 with rfl | rfl
        · rw [eq_of_id_eq m.units hn v u hv0 hu hid]; exact hres'
        · rfl
      by_cases hb : m.budget = 0
      · rw [if_pos hb]
        simp only [List.reverse_reverse]
        rw [residentSum_filter _ _ (hsame m.units (fun v1 h1 => ⟨v1, h1, Or.inl rfl⟩)), hs]
        omega
      · rw [if_neg hb]
        have hmem := evictLRU_mem m.budget u.bytes m.units.reverse m.residentBytes
        have hsum1 := evictLRU_sum m.budget u.bytes m.units.reverse m.residentBytes 0
          (by rw [residentSum_reverse]; omega)
        rw [residentSum_filter _ _ (hsame _ (fun v1 h1 => by
          obtain ⟨v, hv, h⟩ := hmem v1 (List.mem_reverse.mp h1)
          exact ⟨v, List.mem_reverse.mp hv, h⟩)), residentSum_reverse, hsum1]
        omega

/-- Every operation keeps the running sum consistent and the budget as it is. -/
theorem step_sum (w : World) (hw : w.Inv)
    (hs : w.sTextureDataManager.residentBytes = residentSum w.sTextureDataManager.units)
    (op : Op) :
    (w.step op).sTextureDataManager.residentBytes
      = residentSum (w.step op).sTextureDataManager.units ∧
    (w.step op).sTextureDataManager.budget = w.sTextureDataManager.budget := by
  have hn := hw.manager.1
  cases op with
  | get p t fl dy b =>
    show (TextureResource.get w p t fl dy b).2.sTextureDataManager.residentBytes
        = residentSum (TextureResource.get w p t fl dy b).2.sTextureDataManager.units ∧
      (TextureResource.get w p t fl dy b).2.sTextureDataManager.budget
        = w.sTextureDataManager.budget
    unfold TextureResource.get
    simp only []
    cases w.lookup { path := p, tile := t } with
    | some h => exact ⟨hs, rfl⟩
    | none => exact acquire_sum _ _ b fl dy hn hs
  | destroy hid =>
    show (w.destroy hid).sTextureDataManager.residentBytes
        = residentSum (w.destroy hid).sTextureDataManager.units ∧
      (w.destroy hid).sTextureDataManager.budget = w.sTextureDataManager.budget
    unfold World.destroy
    cases w.sAllTextures.find? (fun h => decide (h.id = hid)) with
    | none => exact ⟨hs, rfl⟩
    | some h => exact release_sum _ h.key hs
  | bind hid =>
    show (w.bind hid).sTextureDataManager.residentBytes
        = residentSum (w.bind hid).sTextureDataManager.units ∧
      (w.bind hid).sTextureDataManager.budget = w.sTextureDataManager.budget
    unfold World.bind
    cases w.sAllTextures.find? (fun h => decide (h.id = hid)) with
    | none => exact ⟨hs, rfl⟩
    | some h => exact ensureResident_sum _ h.key hn hs
  | purge key => exact purge_sum _ key hn hs

/-- In every state reached from start-up the manager's table is consistent and the
budget is the configured one. -/
theorem run_wf (ops : List Op) :
    ∀ (w : World), w.Inv →
      w.sTextureDataManager.residentBytes = residentSum w.sTextureDataManager.units →
      (w.run ops).sTextureDataManager.WF ∧
      (w.run ops).sTextureDataManager.budget = w.sTextureDataManager.budget := by
  induction ops with
  | nil => intro w hw hs; exact ⟨⟨hw.manager.1, hs⟩, rfl⟩
  | cons op ops ih =>
    intro w hw hs
    obtain ⟨h1, h2⟩ := step_sum w hw hs op
    obtain ⟨h3, h4⟩ := ih (w.step op) (step_spec w hw op).1 h1
    exact ⟨h3, h4.trans h2⟩

/-! ## Texture budget: the claim -/

/-- C3 (as stated, refuted): with a budget of 10, two textures of 6 bytes each are
requested and bound while both handles are alive (both pinned: 12 bytes resident), then
the first handle is dropped.  In the state reached the total resident bytes, 12, exceed
the budget while a resident unit is eligible for eviction. -/
theorem budget_after_release_counterexample :
    ((World.init 10).run
      [.get "a.png" false false true 6, .get "b.png" false false true 6,
       .bind 0, .bind 1, .destroy 0]).sTextureDataManager.budget = 10 ∧
    ((World.init 10).run
      [.get "a.png" false false true 6, .get "b.png" false false true 6,
       .bind 0, .bind 1, .destroy 0]).sTextureDataManager.totalResidentBytes = 12 ∧
    ((World.init 10).run
      [.get "a.png" false false true 6, .get "b.png" false false true 6,
       .bind 0, .bind 1, .destroy 0]).sTextureDataManager.units.any
        (fun u => u.resident && u.evictable) = true := by
  decide

/-- C3 (amended): in every state reached from start-up with a non-zero VRAM budget,
right after `ensureResident` has made a pinned, not yet resident unit resident, the total
resident bytes reported do not exceed the configured budget unless no resident unit is
eligible for eviction; and the total reported is the sum over the resident units. -/
theorem ensureResident_budget (budget : Nat) (ops : List Op) (key : TextureKeyType)
    (u : TextureData) (hb : budget ≠ 0)
    (hfind : ((World.init budget).run ops).sTextureDataManager.find key = some u)
    (hres : u.resident = false)
    (hpin : 0 < u.refs ∨ u.forceLoad = true ∨ u.inMemory = true ∨ u.dynamic = false) :
    ((((World.init budget).run ops).sTextureDataManager.ensureResident key).totalResidentBytes
        ≤ budget ∨
      ∀ v ∈ (((World.init budget).run ops).sTextureDataManager.ensureResident key).units,
        v.resident = true → v.evictable = false) ∧
    (((World.init budget).run ops).sTextureDataManager.ensureResident key).totalResidentBytes
      = residentSum
        (((World.init budget).run ops).sTextureDataManager.ensureResident key).units := by
  obtain ⟨hwf, hbud⟩ := run_wf ops (World.init budget) (init_inv budget) rfl
  have hbud' : ((World.init budget).run ops).sTextureDataManager.budget = budget := hbud
  have hfit := ensureResident_fit _ key u hwf (by rw [hbud']; exact hb) hfind hres hpin
  have hsame := (ensureResident_sum _ key hwf.1 hwf.2).2
  rw [hsame, hbud'] at hfit
  exact ⟨hfit.1, hfit.2.2⟩

/-- The amended C3 at a state reached from start-up: a cold resident unit of 6 bytes, a
budget of 10, and a referenced unit of 6 bytes to be bound. -/
theorem ensureResident_budget_witness :
    (10 : Nat) ≠ 0 ∧
    ((World.init 10).run
      [.get "a.png" false false true 6, .bind 0, .destroy 0,
       .get "b.png" false false true 6]).sTextureDataManager.find ⟨"b.png", false⟩
      = some { id := 1, key := ⟨"b.png", false⟩, bytes := 6, refs := 1, forceLoad := false,
               dynamic := true, inMemory := false, resident := false } ∧
    ((((World.init 10).run
      [.get "a.png" false false true 6, .bind 0, .destroy 0,
       .get "b.png" false false true 6]).sTextureDataManager.ensureResident
        ⟨"b.png", false⟩).totalResidentBytes ≤ 10 ∨
      ∀ v ∈ (((World.init 10).run
      [.get "a.png" false false true 6, .bind 0, .destroy 0,
       .get "b.png" false false true 6]).sTextureDataManager.ensureResident
        ⟨"b.png", false⟩).units, v.resident = true → v.evictable = false) ∧
    (((World.init 10).run
      [.get "a.png" false false true 6, .bind 0, .destroy 0,
       .get "b.png" false false true 6]).sTextureDataManager.ensureResident
        ⟨"b.png", false⟩).totalResidentBytes
      = residentSum (((World.init 10).run
      [.get "a.png" false false true 6, .bind 0, .destroy 0,
       .get "b.png" false false true 6]).sTextureDataManager.ensureResident
        ⟨"b.png", false⟩).units :=
  ⟨by decide, by decide,
   ensureResident_budget 10
    [.get "a.png" false false true 6, .bind 0, .destroy 0, .get "b.png" false false true 6]
    ⟨"b.png", false⟩
    { id := 1, key := ⟨"b.png", false⟩, bytes := 6, refs := 1, forceLoad := false,
      dynamic := true, inMemory := false, resident := false }
    (by decide) (by decide) rfl (Or.inl (by decide))⟩

end ES
